import Mathlib

/-!
Verification development for the ToneForge deterministic Chain Mapper and
Tone Sanitizer (src/tauri-app/src-tauri/src/chain_mapper.rs and
src/tauri-app/src-tauri/src/tone_sanitizer.rs).

Modelling conventions:

* Rust `f64` values are modelled by `FVal`: an exact rational for finite
  doubles, plus `nan`, `inf`, `ninf`.  The code under study only compares,
  clamps and does affine arithmetic on values, which the rational model
  captures exactly; the one transcendental conversion
  (`hz_to_normalized_log`, which divides differences of natural logarithms)
  and Rust's float `Display`/`format!` renderings are kept abstract behind a
  `FloatOracle` parameter, because they have no computable rational
  counterpart.  Every theorem below holds for every choice of oracle.
* Rust `HashMap`/`HashSet` iteration sequences are modelled by association
  lists: the list order represents the (unspecified) iteration order of the
  hash container.  Keyed lookup of a `HashMap` built by repeated `insert`
  returns the value of the last inserted entry, which the model reproduces.
* Rust `i32` indices are modelled by `Int` (no arithmetic that could
  overflow is performed on them); `usize` counters by `Nat`.
* Strings are Lean `String`s; `to_lowercase`/`is_alphanumeric` are modelled
  by the ASCII `Char.toLower`/`Char.isAlphanum` (all vocabulary involved is
  ASCII).
-/

/-- Model of an `f64` value: an exact rational for a finite double, or one
of the non-finite classes. -/
inductive FVal where
  | fin (q : ℚ)
  | nan
  | inf
  | ninf
deriving DecidableEq, Repr

/-- `f64::is_finite`. -/
def FVal.isFinite : FVal → Bool
  | .fin _ => true
  | _ => false

/-- IEEE comparison `v < q` against a finite constant (`NaN` compares false). -/
def FVal.ltQ : FVal → ℚ → Bool
  | .fin x, q => decide (x < q)
  | .inf, _ => false
  | .ninf, _ => true
  | .nan, _ => false

/-- IEEE comparison `v > q` against a finite constant (`NaN` compares false). -/
def FVal.gtQ : FVal → ℚ → Bool
  | .fin x, q => decide (q < x)
  | .inf, _ => true
  | .ninf, _ => false
  | .nan, _ => false

/-- IEEE comparison `v >= q` against a finite constant (`NaN` compares false). -/
def FVal.geQ : FVal → ℚ → Bool
  | .fin x, q => decide (q ≤ x)
  | .inf, _ => true
  | .ninf, _ => false
  | .nan, _ => false

/-- `f64::abs`. -/
def FVal.abs : FVal → FVal
  | .fin q => .fin |q|
  | .nan => .nan
  | .inf => .inf
  | .ninf => .inf

/-- `f64::partial_cmp` (`None` exactly when one side is `NaN`). -/
def FVal.pcmp : FVal → FVal → Option Ordering
  | .nan, _ => none
  | _, .nan => none
  | .fin a, .fin b => some (compare a b)
  | .fin _, .inf => some .lt
  | .fin _, .ninf => some .gt
  | .inf, .inf => some .eq
  | .inf, _ => some .gt
  | .ninf, .ninf => some .eq
  | .ninf, _ => some .lt

/-- `f64::clamp(lo, hi)` with finite bounds: `NaN` propagates, infinities
clamp to the respective bound. -/
def FVal.clampQ : FVal → ℚ → ℚ → FVal
  | .fin q, lo, hi => .fin (min hi (max lo q))
  | .nan, _, _ => .nan
  | .inf, _, hi => .fin hi
  | .ninf, lo, _ => .fin lo

/-- Kernel-computable rational addition: `Rat.add` itself does not reduce
inside the kernel, so the arithmetic the embedding must evaluate on closed
inputs is expressed through `mkRat` on numerators and denominators.  This
is extensionally the field addition of `ℚ`. -/
def ratAdd (a b : ℚ) : ℚ := mkRat (a.num * b.den + b.num * a.den) (a.den * b.den)

/-- Kernel-computable rational subtraction (see `ratAdd`). -/
def ratSub (a b : ℚ) : ℚ := mkRat (a.num * b.den - b.num * a.den) (a.den * b.den)

/-- Kernel-computable rational multiplication (see `ratAdd`). -/
def ratMul (a b : ℚ) : ℚ := mkRat (a.num * b.num) (a.den * b.den)

/-- Kernel-computable rational inverse (see `ratAdd`). -/
def ratInv (b : ℚ) : ℚ :=
  if b.num < 0 then mkRat (-(b.den : ℤ)) b.num.natAbs else mkRat (b.den : ℤ) b.num.natAbs

/-- Kernel-computable rational division (see `ratAdd`). -/
def ratDiv (a b : ℚ) : ℚ := ratMul a (ratInv b)

/-- Multiplication of a value by a positive integer constant (used for
`v * 1000.0` in frequency parsing), exact for finite doubles. -/
def FVal.mulZ : FVal → ℤ → FVal
  | .fin q, c => .fin (mkRat (q.num * c) q.den)
  | .nan, _ => .nan
  | .inf, _ => .inf
  | .ninf, _ => .ninf

/-- Rust float format specifier occurring in the sources: `{}` (Display),
`{:.N}` and `{:+.N}`. -/
inductive FmtSpec where
  | display
  | fixed (prec : ℕ)
  | fixedSigned (prec : ℕ)
deriving DecidableEq, Repr

/-- The two operations on doubles that have no exact rational model: the
logarithmic frequency conversion `hz_to_normalized_log` (a ratio of natural
logarithms) and Rust's decimal rendering of floats used in `format!`.  All
theorems are proved for an arbitrary oracle. -/
structure FloatOracle where
  hzNorm : FVal → FVal
  fmt : FmtSpec → FVal → String

/-- A trivial oracle used to instantiate closed evaluation theorems. -/
def trivOracle : FloatOracle where
  hzNorm := fun _ => .fin 0
  fmt := fun _ _ => ""

/- ## String utilities shared by both source files -/

/-- Whether the first list is a (contiguous) prefix of the second. -/
def isPrefixCh : List Char → List Char → Bool
  | [], _ => true
  | _ :: _, [] => false
  | a :: as, b :: bs => a == b && isPrefixCh as bs

/-- Model of Rust `str::find(pattern)`: index of the first occurrence of
`pat` as a contiguous sublist, if any. -/
def findSubIdx (pat : List Char) : List Char → Option Nat
  | [] => if pat.isEmpty then some 0 else none
  | l@(_ :: rest) =>
    if isPrefixCh pat l then some 0 else (findSubIdx pat rest).map (· + 1)

/-- Model of Rust `str::contains(pattern)`. -/
def strContains (s pat : String) : Bool := (findSubIdx pat.data s.data).isSome

/-- Model of Rust `str::ends_with(pattern)`. -/
def strEndsWith (s pat : String) : Bool := isPrefixCh pat.data.reverse s.data.reverse

/-- Model of Rust `str::trim` (drop whitespace at both ends). -/
def trimChars (l : List Char) : List Char :=
  ((l.dropWhile Char.isWhitespace).reverse.dropWhile Char.isWhitespace).reverse

/-- `chain_mapper.rs::normalize_token`: lowercase then keep alphanumerics. -/
def normalize_token (text : String) : String :=
  ⟨(text.data.map Char.toLower).filter Char.isAlphanum⟩

/-- `chain_mapper.rs::contains_token`. -/
def contains_token (text token : String) : Bool :=
  strContains (normalize_token text) (normalize_token token)

/- ## Numeric parsing (`num.parse::<f64>()` on an already lowercase slice) -/

/-- Decimal value of a digit list. -/
def digitsToNat (ds : List Char) : ℕ :=
  ds.foldl (fun n c => n * 10 + (c.toNat - 48)) 0

/-- The exact rational value `±(i + f / 10^|f|) · 10^e` of a parsed decimal
with integer digits `i`, fraction digits `f` and exponent `e`, written with
`mkRat` on integer numerator and denominator so the kernel can evaluate it
(see `ratAdd`): appending the fraction digits to the integer digits scales
the integer part by `10^|f|`. -/
def decimalToRat (neg : Bool) (intPart fracPart : List Char) (e : ℤ) : ℚ :=
  let n : ℤ := (digitsToNat (intPart ++ fracPart) : ℤ)
  let n := if neg then -n else n
  let d : ℕ := 10 ^ fracPart.length
  if 0 ≤ e then mkRat (n * (10 : ℤ) ^ e.toNat) d else mkRat n (d * 10 ^ (-e).toNat)

/-- Model of Rust `str::parse::<f64>()` on a lowercase string, with exact
rational semantics for the significand and exponent (the real parser rounds
to the nearest double and saturates huge exponents to infinity; no claim in
this development depends on that rounding). -/
def parseRustF64 (cs : List Char) : Option FVal :=
  let (neg, rest) :=
    match cs with
    | '+' :: r => (false, r)
    | '-' :: r => (true, r)
    | r => (false, r)
  if rest = ['i', 'n', 'f'] ∨ rest = ['i', 'n', 'f', 'i', 'n', 'i', 't', 'y'] then
    some (if neg then .ninf else .inf)
  else if rest = ['n', 'a', 'n'] then some .nan
  else
    let intPart := rest.takeWhile Char.isDigit
    let rest1 := rest.dropWhile Char.isDigit
    let (fracPart, rest2) :=
      match rest1 with
      | '.' :: r => (r.takeWhile Char.isDigit, r.dropWhile Char.isDigit)
      | r => ([], r)
    if intPart = [] ∧ fracPart = [] then none
    else
      match rest2 with
      | [] => some (.fin (decimalToRat neg intPart fracPart 0))
      | 'e' :: r =>
        let (eneg, r2) :=
          match r with
          | '+' :: rr => (false, rr)
          | '-' :: rr => (true, rr)
          | rr => (false, rr)
        let eds := r2.takeWhile Char.isDigit
        if eds = [] ∨ r2.dropWhile Char.isDigit ≠ [] then none
        else
          let e : ℤ := if eneg then -(digitsToNat eds : ℤ) else (digitsToNat eds : ℤ)
          some (.fin (decimalToRat neg intPart fracPart e))
      | _ => none

/-- The trimmed, lowercased, space-stripped form a frequency label is
reduced to by `parse_frequency_hz`. -/
def stripFreqLabel (text : String) : List Char :=
  ((trimChars text.data).map Char.toLower).filter (fun c => c ≠ ' ')

/-- `chain_mapper.rs::parse_frequency_hz`.  Looks for the first occurrence
of `"khz"` (then `"hz"`), parses the prefix before it as a float, and scales
by 1000 in the `khz` case.  A failed prefix parse aborts with `none` (the
`?` operator) rather than falling through. -/
def parse_frequency_hz (text : String) : Option FVal :=
  let s := stripFreqLabel text
  match findSubIdx ['k', 'h', 'z'] s with
  | some p => (parseRustF64 (s.take p)).map (fun v => v.mulZ 1000)
  | none =>
    match findSubIdx ['h', 'z'] s with
    | some p => parseRustF64 (s.take p)
    | none => none

/-- `chain_mapper.rs::parse_reaeq_band_number`: find `"band"` in the
lowercased name, skip whitespace, take leading ASCII digits, parse as `i32`
(overflow fails). -/
def parse_reaeq_band_number (param_name : String) : Option ℤ :=
  let lower := param_name.data.map Char.toLower
  match findSubIdx ['b', 'a', 'n', 'd'] lower with
  | none => none
  | some pos =>
    let after := (lower.drop (pos + 4)).dropWhile Char.isWhitespace
    let digits := after.takeWhile Char.isDigit
    if digits = [] then none
    else if digitsToNat digits > 2147483647 then none
    else some (digitsToNat digits : ℤ)

/-- `chain_mapper.rs::db_to_normalized`: clamp to `±maxAbsDb`, then map
affinely onto `[0, 1]` (`(clamped + max) / (2·max)`, written with the
kernel-computable rational operations). -/
def db_to_normalized (db : FVal) (maxAbsDb : ℚ) : FVal :=
  match db.clampQ (-maxAbsDb) maxAbsDb with
  | .fin q => .fin (ratDiv (ratAdd q maxAbsDb) (ratMul 2 maxAbsDb))
  | v => v

/- ## Data model (`parameter_ai.rs`, `tone_encyclopedia.rs`) -/

/-- `parameter_ai.rs::ReaperParameter`. -/
structure ReaperParameter where
  index : ℤ
  name : String
  current_value : FVal
  display_value : String
  unit : String
  format_hint : String
deriving DecidableEq, Repr

/-- `parameter_ai.rs::ReaperPlugin`. -/
structure ReaperPlugin where
  index : ℤ
  name : String
  enabled : Bool
  parameters : List ReaperParameter
deriving DecidableEq, Repr

/-- `parameter_ai.rs::ReaperSnapshot`. -/
structure ReaperSnapshot where
  track_index : ℤ
  track_name : String
  plugins : List ReaperPlugin
deriving DecidableEq, Repr

/-- `parameter_ai.rs::ParameterAction`. -/
inductive ParameterAction where
  | setParameter (track plugin_index param_index : ℤ) (param_name : String)
      (value : FVal) (reason : String)
  | enablePlugin (track plugin_index : ℤ) (plugin_name : String) (reason : String)
  | loadPlugin (track : ℤ) (plugin_name : String) (position : Option ℤ) (reason : String)
deriving DecidableEq, Repr

/-- `tone_encyclopedia.rs::EffectParameters`.  The `parameters` `HashMap` is
modelled by its iteration sequence. -/
structure EffectParameters where
  effect_type : String
  parameters : List (String × FVal)
deriving DecidableEq, Repr

/-- `tone_encyclopedia.rs::ToneParameters`, each `HashMap` modelled by its
iteration sequence. -/
structure ToneParameters where
  amp : List (String × FVal)
  eq : List (String × FVal)
  effects : List EffectParameters
  reverb : List (String × FVal)
  delay : List (String × FVal)
deriving DecidableEq, Repr

/-- `chain_mapper.rs::ChainMapperConfig`. -/
structure ChainMapperConfig where
  allow_load_plugins : Bool
  max_eq_points : ℕ
deriving DecidableEq, Repr

/-- `chain_mapper.rs::ChainMappingResult`. -/
structure ChainMappingResult where
  actions : List ParameterAction
  summary : String
  warnings : List String
  requires_resnapshot : Bool
deriving DecidableEq, Repr

/- ## Vocabulary tables (`chain_mapper.rs`) -/

/-- `role_keywords_amp`. -/
def role_keywords_amp : List String :=
  ["neuraldsp", "archetype", "amp", "sim", "amplifier", "dist", "gain"]

/-- `role_keywords_eq`. -/
def role_keywords_eq : List String := ["reaeq", "proq", "eq", "equalizer"]

/-- `role_keywords_gate`. -/
def role_keywords_gate : List String := ["reagate", "gate", "noisegate", "noise"]

/-- `role_keywords_reverb`. -/
def role_keywords_reverb : List String := ["reaverbate", "reaverb", "reverb", "room", "hall"]

/-- `role_keywords_delay`. -/
def role_keywords_delay : List String := ["readelay", "delay", "echo"]

/-- `role_keywords_for_effect` (argument is the already-normalized type). -/
def role_keywords_for_effect (effect_type_norm : String) : List String :=
  match effect_type_norm with
  | "noisegate" | "gate" => role_keywords_gate
  | "overdrive" | "od" => ["overdrive", "od", "screamer", "drive"]
  | "distortion" | "dist" => ["distortion", "dist", "fuzz"]
  | "compressor" | "comp" => ["compressor", "comp"]
  | _ => [effect_type_norm]

/-- `default_plugin_for_effect`. -/
def default_plugin_for_effect (effect_type_norm : String) : Option String :=
  match effect_type_norm with
  | "noisegate" | "gate" => some "ReaGate (Cockos)"
  | _ => none

/-- `synonyms_for_key`. -/
def synonyms_for_key (key_norm : String) : List String :=
  match key_norm with
  | "gain" => ["gain", "drive", "input", "pregain", "preamp"]
  | "drive" => ["drive", "gain", "input"]
  | "bass" | "low" => ["bass", "low", "lf", "lows"]
  | "mid" | "middle" => ["mid", "middle", "mids", "mf"]
  | "treble" | "high" => ["treble", "high", "hf", "highs", "presence"]
  | "presence" => ["presence", "pres", "bright"]
  | "master" | "output" | "level" | "volume" => ["master", "output", "level", "volume"]
  | "threshold" => ["threshold", "thresh"]
  | "attack" => ["attack", "att"]
  | "release" => ["release", "rel"]
  | "mix" => ["mix", "wet", "drywet", "blend"]
  | "time" => ["time", "ms", "sec", "seconds"]
  | "feedback" => ["feedback", "fb"]
  | _ => [key_norm]

/- ## Scoring and selection (`chain_mapper.rs`) -/

/-- `score_text_against_keywords`. -/
def score_text_against_keywords (text : String) (keywords : List String) : ℤ :=
  let t := normalize_token text
  (keywords.enum).foldl
    (fun s ik => if strContains t ik.2 then s + (10 - (ik.1 : ℤ)) else s) 0

/-- `pick_best_plugin`: first plugin with the strictly greatest positive
score wins. -/
def pick_best_plugin (snapshot : ReaperSnapshot) (keywords : List String) :
    Option ReaperPlugin :=
  (snapshot.plugins.foldl
    (fun best p =>
      let score := score_text_against_keywords p.name keywords
      if score ≤ 0 then best
      else
        match best with
        | none => some (p, score)
        | some (_, bestScore) => if score > bestScore then some (p, score) else best)
    none).map Prod.fst

/-- The synonym loop of `score_param_name` (first synonym that matches by
equality or containment wins, scored `90 - i` resp. `50 - i`). -/
def scoreSynonyms (p : String) : ℕ → List String → ℤ
  | _, [] => 0
  | i, s :: rest =>
    if p = s then 90 - (i : ℤ)
    else if strContains p s then 50 - (i : ℤ)
    else scoreSynonyms p (i + 1) rest

/-- `score_param_name`. -/
def score_param_name (param_name key_norm : String) (synonyms : List String) : ℤ :=
  let p := normalize_token param_name
  if p = key_norm then 100
  else if strContains p key_norm then 60
  else scoreSynonyms p 0 synonyms

/-- `pick_best_param`. -/
def pick_best_param (plugin : ReaperPlugin) (key : String) : Option ReaperParameter :=
  let key_norm := normalize_token key
  let synonyms := synonyms_for_key key_norm
  (plugin.parameters.foldl
    (fun best p =>
      let score := score_param_name p.name key_norm synonyms
      if score ≤ 0 then best
      else
        match best with
        | none => some (p, score)
        | some (_, bestScore) => if score > bestScore then some (p, score) else best)
    none).map Prod.fst

/- ## Gate inference (`chain_mapper.rs`) -/

/-- `chain_mapper.rs::GateKind`. -/
inductive GateKind where
  | Bypass
  | Enable
deriving DecidableEq, Repr

/-- `chain_mapper.rs::gate_kind`. -/
def gate_kind (name : String) : Option GateKind :=
  let n := normalize_token name
  if strContains n "bypass" then some .Bypass
  else if strContains n "enable" || strContains n "enabled" || strEndsWith n "on" ||
      strContains n "active" then some .Enable
  else none

/-- Tokenizer used by `module_tokens`: split on non-alphanumerics, drop
empty chunks, lowercase each chunk. -/
def splitTokensAux : List Char → List Char → List String
  | [], cur => if cur = [] then [] else [⟨cur.reverse⟩]
  | c :: rest, cur =>
    if c.isAlphanum then splitTokensAux rest (c :: cur)
    else if cur = [] then splitTokensAux rest []
    else (⟨cur.reverse⟩ : String) :: splitTokensAux rest []

/-- The fixed stop list of `module_tokens`. -/
def moduleStopList : List String :=
  ["enable", "enabled", "bypass", "on", "off", "active", "switch", "button",
   "band", "freq", "frequency", "gain", "level", "mix", "amount"]

/-- `chain_mapper.rs::module_tokens`.  The Rust function returns a
`HashSet<String>`; the model returns the deduplicated token list (order is
irrelevant to every use: intersection cardinality and emptiness). -/
def module_tokens (name : String) : List String :=
  (((splitTokensAux name.data []).map fun t => (⟨t.data.map Char.toLower⟩ : String))
    |>.filter (fun t => t.data.any Char.isAlpha)
    |>.filter (fun t => ¬ t ∈ moduleStopList)).dedup

/-- `chain_mapper.rs::GateParam`. -/
structure GateParam where
  param_index : ℤ
  param_name : String
  current_value : FVal
  kind : GateKind
  module_tokens : List String
deriving DecidableEq, Repr

/-- `gate_is_inactive`. -/
def gate_is_inactive (gate : GateParam) : Bool :=
  match gate.kind with
  | .Bypass => gate.current_value.geQ (mkRat 1 2)
  | .Enable => gate.current_value.ltQ (mkRat 1 2)

/-- `gate_enable_value`. -/
def gate_enable_value (gate : GateParam) : FVal :=
  match gate.kind with
  | .Bypass => .fin 0
  | .Enable => .fin 1

/-- The gate parameters of a plugin, in parameter order (the `gates`
vector built by `ensure_prerequisites`). -/
def gatesOf (plugin : ReaperPlugin) : List GateParam :=
  plugin.parameters.filterMap fun p =>
    (gate_kind p.name).map fun k =>
      { param_index := p.index, param_name := p.name, current_value := p.current_value,
        kind := k, module_tokens := module_tokens p.name }

/-- The `plugin_gates` map of `ensure_prerequisites`: keyed `HashMap`
lookup; the entry for an index is the gate list of the last plugin with
that index whose gate list is non-empty. -/
def pluginGates (snapshot : ReaperSnapshot) (plugin_index : ℤ) : Option (List GateParam) :=
  ((snapshot.plugins.filter fun p =>
      p.index = plugin_index ∧ gatesOf p ≠ []).getLast?).map gatesOf

/-- Number of common tokens between two deduplicated token lists (the
`intersection(..).count()` of the Rust `HashSet`s). -/
def overlapCount (a b : List String) : ℕ := (a.filter fun t => t ∈ b).length

/-- One step of the best-overlap selection loop over the gates of a plugin
(strictly greater overlap replaces; overlap must be at least 1). -/
def overlapStep (target : List String) (best : Option (GateParam × ℕ)) (g : GateParam) :
    Option (GateParam × ℕ) :=
  let ov := overlapCount g.module_tokens target
  if ov = 0 then best
  else
    match best with
    | none => some (g, ov)
    | some (_, bestOv) => if ov > bestOv then some (g, ov) else best

/-- The best-overlap selection loop over the gates of a plugin. -/
def bestOverlapGate (gates : List GateParam) (target : List String) : Option GateParam :=
  (gates.foldl (overlapStep target) none).map Prod.fst

/-- The gate chosen by `ensure_prerequisites` for a `SetParameter` with the
given plugin index, parameter index and parameter name: `none` when the
plugin has no gates, when the parameter is itself a gate, or when no
overlap match and no fallback applies. -/
def chooseGate (snapshot : ReaperSnapshot) (plugin_index param_index : ℤ)
    (param_name : String) : Option GateParam :=
  match pluginGates snapshot plugin_index with
  | none => none
  | some gates =>
    if gates.any (fun g => g.param_index = param_index) then none
    else
      let target := module_tokens param_name
      let chosen :=
        if target.isEmpty then none else bestOverlapGate gates target
      match chosen with
      | some g => some g
      | none =>
        if gates.length = 1 then gates.head?
        else gates.find? fun g => g.module_tokens.isEmpty

/- ## ensure_prerequisites (`chain_mapper.rs`) -/

/-- The `plugin_enabled` map of `ensure_prerequisites` (a `HashMap` built
from the plugin iterator: the last plugin with a given index wins). -/
def pluginEnabledLookup (snapshot : ReaperSnapshot) (plugin_index : ℤ) : Option Bool :=
  ((snapshot.plugins.filter fun p => p.index = plugin_index).getLast?).map (·.enabled)

/-- The `has_enable` membership test of `ensure_prerequisites`. -/
def hasEnableFor (actions : List ParameterAction) (plugin_index : ℤ) : Bool :=
  actions.any fun a =>
    match a with
    | .enablePlugin _ i _ _ => i = plugin_index
    | _ => true = false

/-- The `needs_enable` set of `ensure_prerequisites`.  A Rust `HashSet` is
iterated in unspecified order; the model uses `List.dedup` of the indices
collected from the `SetParameter` scan.  The inserted `EnablePlugin`
actions are re-ordered by `plugin_rank` in `plan_actions` and the indices
are distinct, so the final action list does not depend on this choice. -/
def needsEnableList (snapshot : ReaperSnapshot) (actions : List ParameterAction) : List ℤ :=
  (actions.filterMap fun a =>
    match a with
    | .setParameter _ pi _ _ _ _ =>
      if pluginEnabledLookup snapshot pi = some false ∧ ¬ hasEnableFor actions pi then
        some pi
      else none
    | _ => none).dedup

/-- Warning text for an auto-inserted `EnablePlugin`. -/
def autoEnableWarning (plugin_name : String) : String :=
  "Plugin '" ++ plugin_name ++ "' was disabled but has SetParameter actions; inserting EnablePlugin"

/-- Warning text for an auto-inserted section-gate toggle. -/
def gateOpenWarning (gate_name param_name : String) : String :=
  "Section gate '" ++ gate_name ++ "' appears inactive; inserting toggle before setting '" ++
    param_name ++ "'"

/-- Reason text for an auto-inserted section-gate toggle. -/
def gateOpenReason (param_name : String) : String :=
  "Auto-enable section for '" ++ param_name ++ "'"

/-- The gate-toggle scan of `ensure_prerequisites`: walks the action list,
and for each `SetParameter` whose chosen gate is inactive and whose
`(plugin, gate)` pair has not been handled yet, produces one opening
`SetParameter` (collected into `extra_actions`) and one warning. -/
def gateScan (snapshot : ReaperSnapshot) :
    List ParameterAction → List (ℤ × ℤ) → List ParameterAction × List String
  | [], _ => ([], [])
  | a :: rest, inserted =>
    match a with
    | .setParameter track pi qi pname _v _r =>
      match chooseGate snapshot pi qi pname with
      | some g =>
        if (pi, g.param_index) ∈ inserted then gateScan snapshot rest inserted
        else if gate_is_inactive g then
          let res := gateScan snapshot rest ((pi, g.param_index) :: inserted)
          (.setParameter track pi g.param_index g.param_name (gate_enable_value g)
              (gateOpenReason pname) :: res.1,
            gateOpenWarning g.param_name pname :: res.2)
        else gateScan snapshot rest inserted
      | none => gateScan snapshot rest inserted
    | _ => gateScan snapshot rest inserted

/-- The `EnablePlugin` actions (with their warnings) synthesized for the
`needs_enable` set, with the plugin resolved by the first-match `find`. -/
def enablePairs (snapshot : ReaperSnapshot) (actions : List ParameterAction) :
    List (ParameterAction × String) :=
  (needsEnableList snapshot actions).filterMap fun pi =>
    (snapshot.plugins.find? fun p => p.index = pi).map fun p =>
      ((ParameterAction.enablePlugin snapshot.track_index pi p.name
          "Auto-enable plugin because parameters will be set"),
        autoEnableWarning p.name)

/-- `chain_mapper.rs::ensure_prerequisites`: first auto-enable disabled
plugins that receive `SetParameter` actions, then append section-gate
toggles. -/
def ensure_prerequisites (snapshot : ReaperSnapshot) (actions : List ParameterAction) :
    List ParameterAction × List String :=
  let actions1 := actions ++ (enablePairs snapshot actions).map Prod.fst
  let scanned := gateScan snapshot actions1 []
  (actions1 ++ scanned.1, (enablePairs snapshot actions).map Prod.snd ++ scanned.2)

/- ## plan_actions (`chain_mapper.rs`) -/

/-- Value hygiene applied to one `SetParameter` value: non-finite becomes
0.5 (with a warning), then out-of-range values are clamped (with a
warning).  Returns the new value and the warnings pushed for it. -/
def hygieneValue (O : FloatOracle) (v : FVal) : FVal × List String :=
  match v with
  | .fin q =>
    if q < 0 then
      (.fin 0, ["Value " ++ O.fmt .display (.fin q) ++ " < 0.0; clamped to 0.0"])
    else if q > 1 then
      (.fin 1, ["Value " ++ O.fmt .display (.fin q) ++ " > 1.0; clamped to 1.0"])
    else (.fin q, [])
  | _ => (.fin (mkRat 1 2), ["Non-finite parameter value encountered; clamping to 0.5"])

/-- The action after value hygiene (only `SetParameter` values change). -/
def hygieneAction (O : FloatOracle) : ParameterAction → ParameterAction
  | .setParameter t pi qi n v r => .setParameter t pi qi n (hygieneValue O v).1 r
  | a => a

/-- The warnings value hygiene pushes for an action. -/
def hygieneWarnings (O : FloatOracle) : ParameterAction → List String
  | .setParameter _ _ _ _ v _ => (hygieneValue O v).2
  | _ => []

/-- The deduplication key `(track, plugin_index, param_index)` of a
`SetParameter`, `none` for the other variants. -/
def setDedupKey : ParameterAction → Option (ℤ × ℤ × ℤ)
  | .setParameter t pi qi _ _ _ => some (t, pi, qi)
  | _ => none

/-- The deduplication pass of `plan_actions`: among `SetParameter` actions
with the same key only the last (in input order) survives; other variants
pass through. -/
def dedupSets : List ParameterAction → List ParameterAction
  | [] => []
  | a :: rest =>
    match setDedupKey a with
    | none => a :: dedupSets rest
    | some k =>
      if rest.any (fun b => setDedupKey b = some k) then dedupSets rest
      else a :: dedupSets rest

/-- `type_rank`: `LoadPlugin = 0`, `EnablePlugin = 1`, `SetParameter = 2`. -/
def typeRank : ParameterAction → ℕ
  | .loadPlugin .. => 0
  | .enablePlugin .. => 1
  | .setParameter .. => 2

/-- `plugin_rank`: `-1` for `LoadPlugin`, the plugin index otherwise. -/
def pluginRank : ParameterAction → ℤ
  | .loadPlugin .. => -1
  | .enablePlugin _ pi _ _ => pi
  | .setParameter _ pi _ _ _ _ => pi

/-- The gate-word test of `set_rank` on a parameter name. -/
def setRankName (param_name : String) : ℕ :=
  let n := normalize_token param_name
  if strContains n "bypass" || strContains n "enable" || strContains n "enabled" ||
      strContains n "active" || strEndsWith n "on" then 0
  else 1

/-- `set_rank`: gate-like `SetParameter`s rank 0, other `SetParameter`s
rank 1, other variants rank 0. -/
def setRank : ParameterAction → ℕ
  | .setParameter _ _ _ n _ _ => setRankName n
  | _ => 0

/-- The 4-tuple comparison of `plan_actions`' final sort, on actions paired
with their input index: lexicographic on
`(type_rank, plugin_rank, set_rank, input_index)`. -/
def pairKeyLEB (x y : ℕ × ParameterAction) : Bool :=
  decide (typeRank x.2 < typeRank y.2 ∨
    (typeRank x.2 = typeRank y.2 ∧
      (pluginRank x.2 < pluginRank y.2 ∨
        (pluginRank x.2 = pluginRank y.2 ∧
          (setRank x.2 < setRank y.2 ∨
            (setRank x.2 = setRank y.2 ∧ x.1 ≤ y.1))))))

/-- The above as a relation. -/
def pairKeyLE (x y : ℕ × ParameterAction) : Prop := pairKeyLEB x y = true

instance : DecidableRel pairKeyLE := fun x y =>
  inferInstanceAs (Decidable (pairKeyLEB x y = true))

/-- The final total ordering of `plan_actions`: the input-index tiebreak
makes the comparison a total order on distinct positions, so every correct
sort (the model uses insertion sort, Rust a stable merge sort) yields the
same, unique sorted permutation. -/
def sortActions (l : List ParameterAction) : List ParameterAction :=
  (List.insertionSort pairKeyLE l.enum).map Prod.snd

/-- `chain_mapper.rs::plan_actions`: value hygiene, deduplication, total
ordering.  Returns the planned actions and the hygiene warnings (pushed in
input order, as in the source's first loop). -/
def plan_actions (O : FloatOracle) (actions : List ParameterAction) :
    List ParameterAction × List String :=
  (sortActions (dedupSets (actions.map (hygieneAction O))),
    (actions.map (hygieneWarnings O)).flatten)

/- ## build_summary (`chain_mapper.rs`) -/

/-- Number of `SetParameter` actions. -/
def countSet (actions : List ParameterAction) : ℕ :=
  (actions.filter fun a => match a with | .setParameter .. => true | _ => false).length

/-- Number of `EnablePlugin` actions. -/
def countEnable (actions : List ParameterAction) : ℕ :=
  (actions.filter fun a => match a with | .enablePlugin .. => true | _ => false).length

/-- Number of `LoadPlugin` actions. -/
def countLoad (actions : List ParameterAction) : ℕ :=
  (actions.filter fun a => match a with | .loadPlugin .. => true | _ => false).length

/-- `chain_mapper.rs::build_summary`. -/
def build_summary (actions : List ParameterAction) (requires_resnapshot : Bool) : String :=
  let loadCount := countLoad actions
  let enableCount := countEnable actions
  let setCount := countSet actions
  let parts :=
    (if loadCount > 0 then ["load " ++ toString loadCount ++ " plugin(s)"] else []) ++
    (if enableCount > 0 then ["enable " ++ toString enableCount ++ " plugin(s)"] else []) ++
    (if setCount > 0 then ["set " ++ toString setCount ++ " parameter(s)"] else [])
  let parts := if parts.isEmpty then ["no actions"] else parts
  let parts := if requires_resnapshot then parts ++ ["requires resnapshot"] else parts
  String.intercalate ", " parts

/- ## Per-section mapping (`chain_mapper.rs`) -/

/-- Warning text of `map_param_group` for an unmapped key. -/
def unmappedWarning (group key plugin_name : String) : String :=
  "Unmapped " ++ group ++ " param '" ++ key ++ "' for plugin '" ++ plugin_name ++ "'"

/-- `chain_mapper.rs::map_param_group`: one `SetParameter` per key the
param matcher resolves, one warning per key it does not.  The `params`
list is the iteration sequence of the Rust `HashMap`. -/
def map_param_group (track : ℤ) (plugin : ReaperPlugin) (params : List (String × FVal))
    (group : String) : List ParameterAction × List String :=
  params.foldl
    (fun acc kv =>
      match pick_best_param plugin kv.1 with
      | none => (acc.1, acc.2 ++ [unmappedWarning group kv.1 plugin.name])
      | some p =>
        (acc.1 ++ [.setParameter track plugin.index p.index p.name kv.2
            (group ++ " :: " ++ kv.1 ++ " -> " ++ p.name)], acc.2))
    ([], [])

/-- Band number of a parameter classified as a band-frequency parameter
(`"band"` followed by digits, and the normalized name contains `"freq"`). -/
def isBandFreq (p : ReaperParameter) : Option ℤ :=
  (parse_reaeq_band_number p.name).bind fun b =>
    if strContains (normalize_token p.name) "freq" then some b else none

/-- Band number of a parameter classified as a band-gain parameter (the
`else if` branch: not frequency-classified, and the normalized name
contains `"gain"`). -/
def isBandGain (p : ReaperParameter) : Option ℤ :=
  (parse_reaeq_band_number p.name).bind fun b =>
    if strContains (normalize_token p.name) "freq" then none
    else if strContains (normalize_token p.name) "gain" then some b else none

/-- `band_freq_param.get(&band)`: a `HashMap` keyed by band number, later
inserts overwriting earlier ones. -/
def bandFreqLookup (plugin : ReaperPlugin) (band : ℤ) : Option ReaperParameter :=
  (plugin.parameters.filter fun p => isBandFreq p = some band).getLast?

/-- `band_gain_param.get(&band)`. -/
def bandGainLookup (plugin : ReaperPlugin) (band : ℤ) : Option ReaperParameter :=
  (plugin.parameters.filter fun p => isBandGain p = some band).getLast?

/-- The ascending sorted list of distinct band numbers that have a
frequency parameter (`band_freq_param.keys()` sorted). -/
def freqBands (plugin : ReaperPlugin) : List ℤ :=
  List.insertionSort (· ≤ ·) (plugin.parameters.filterMap isBandFreq).dedup

/-- The descending-by-`|dB|` comparison used on EQ points, second component
holding the dB value: Rust's `b.abs().partial_cmp(&a.abs()).unwrap_or(Equal)`
comparator, as a not-greater relation for the stable sort. -/
def absDescLE {α : Type} (x y : α × FVal) : Prop :=
  ((FVal.pcmp y.2.abs x.2.abs).getD .eq) ≠ .gt

instance {α : Type} : DecidableRel (absDescLE (α := α)) := fun x y =>
  inferInstanceAs (Decidable ((FVal.pcmp y.2.abs x.2.abs).getD .eq ≠ .gt))

/-- `chain_mapper.rs::map_eq_reaeq`.  The frequency normalization
`hz_to_normalized_log` is the oracle's `hzNorm`. -/
def map_eq_reaeq (O : FloatOracle) (track : ℤ) (plugin : ReaperPlugin)
    (eq : List (String × FVal)) (max_points : ℕ) : List ParameterAction × List String :=
  let points0 : List (FVal × FVal) :=
    eq.filterMap fun kv => (parse_frequency_hz kv.1).map fun hz => (hz, kv.2)
  let points := (List.insertionSort absDescLE points0).take max_points
  if points.isEmpty then ([], ["EQ map: no parsable frequency keys found; skipped"])
  else if ¬ plugin.parameters.any (fun p => (isBandFreq p).isSome) ∨
      ¬ plugin.parameters.any (fun p => (isBandGain p).isSome) then
    ([], ["EQ map: '" ++ plugin.name ++ "' does not look like ReaEQ band params; skipped"])
  else
    ((points.zip (freqBands plugin)).foldl
      (fun acc pb =>
        match bandFreqLookup plugin pb.2, bandGainLookup plugin pb.2 with
        | some freqParam, some gainParam =>
          acc ++
            [.setParameter track plugin.index freqParam.index freqParam.name
                (O.hzNorm pb.1.1)
                ("eq :: set band " ++ toString pb.2 ++ " freq to " ++
                  O.fmt (.fixed 0) pb.1.1 ++ " Hz"),
              .setParameter track plugin.index gainParam.index gainParam.name
                (db_to_normalized pb.1.2 24)
                ("eq :: set band " ++ toString pb.2 ++ " gain to " ++
                  O.fmt (.fixedSigned 1) pb.1.2 ++ " dB")]
        | _, _ => acc)
      [], [])

/- ## Mapping driver (`ChainMapper::map`) -/

/-- The amp block of `ChainMapper::map`: pick an amp plugin; if found,
enable it when disabled and the amp map is non-empty, then map the amp
group; otherwise warn when the amp map is non-empty. -/
def ampSection (track : ℤ) (snapshot : ReaperSnapshot) (tone : ToneParameters) :
    List ParameterAction × List String :=
  match pick_best_plugin snapshot role_keywords_amp with
  | some plugin =>
    let pre :=
      if ¬ plugin.enabled ∧ ¬ tone.amp.isEmpty then
        [ParameterAction.enablePlugin track plugin.index plugin.name
          "Enable amp plugin for tone mapping"]
      else []
    let mapped := map_param_group track plugin tone.amp "amp"
    (pre ++ mapped.1, mapped.2)
  | none =>
    ([], if tone.amp.isEmpty then []
      else ["No suitable amp plugin found; amp parameters were not applied"])

/-- The per-effect block of `ChainMapper::map`.  Returns the actions, the
warnings and the `requires_resnapshot` contribution. -/
def effectSection (config : ChainMapperConfig) (track : ℤ) (snapshot : ReaperSnapshot)
    (effect : EffectParameters) : List ParameterAction × List String × Bool :=
  let role := normalize_token effect.effect_type
  match pick_best_plugin snapshot (role_keywords_for_effect role) with
  | some plugin =>
    let pre :=
      if ¬ plugin.enabled ∧ ¬ effect.parameters.isEmpty then
        [ParameterAction.enablePlugin track plugin.index plugin.name
          ("Enable '" ++ effect.effect_type ++ "' plugin for tone mapping")]
      else []
    let mapped := map_param_group track plugin effect.parameters
      ("effect:" ++ effect.effect_type)
    (pre ++ mapped.1, mapped.2, false)
  | none =>
    if config.allow_load_plugins then
      match default_plugin_for_effect role with
      | some default_fx =>
        ([ParameterAction.loadPlugin track default_fx none
            ("Load missing effect plugin for '" ++ effect.effect_type ++ "'")],
          [], true)
      | none =>
        ([], ["No suitable plugin found for effect '" ++ effect.effect_type ++ "'; skipped"],
          false)
    else
      ([], ["No suitable plugin found for effect '" ++ effect.effect_type ++ "'; skipped"],
        false)

/-- The reverb block of `ChainMapper::map` (skipped when the reverb map is
empty). -/
def reverbSection (config : ChainMapperConfig) (track : ℤ) (snapshot : ReaperSnapshot)
    (reverb : List (String × FVal)) : List ParameterAction × List String × Bool :=
  if reverb.isEmpty then ([], [], false)
  else
    match pick_best_plugin snapshot role_keywords_reverb with
    | some plugin =>
      let pre :=
        if ¬ plugin.enabled then
          [ParameterAction.enablePlugin track plugin.index plugin.name
            "Enable reverb plugin for tone mapping"]
        else []
      let mapped := map_param_group track plugin reverb "reverb"
      (pre ++ mapped.1, mapped.2, false)
    | none =>
      if config.allow_load_plugins then
        ([ParameterAction.loadPlugin track "ReaVerbate (Cockos)" none
            "Load missing reverb plugin"], [], true)
      else ([], ["No suitable reverb plugin found; skipped"], false)

/-- The delay block of `ChainMapper::map`. -/
def delaySection (config : ChainMapperConfig) (track : ℤ) (snapshot : ReaperSnapshot)
    (delay : List (String × FVal)) : List ParameterAction × List String × Bool :=
  if delay.isEmpty then ([], [], false)
  else
    match pick_best_plugin snapshot role_keywords_delay with
    | some plugin =>
      let pre :=
        if ¬ plugin.enabled then
          [ParameterAction.enablePlugin track plugin.index plugin.name
            "Enable delay plugin for tone mapping"]
        else []
      let mapped := map_param_group track plugin delay "delay"
      (pre ++ mapped.1, mapped.2, false)
    | none =>
      if config.allow_load_plugins then
        ([ParameterAction.loadPlugin track "ReaDelay (Cockos)" none
            "Load missing delay plugin"], [], true)
      else ([], ["No suitable delay plugin found; skipped"], false)

/-- The EQ block of `ChainMapper::map`: only a plugin whose name contains
the token `"reaeq"` is driven through `map_eq_reaeq`; any other chosen EQ
plugin yields a warning and no EQ parameters. -/
def eqSection (O : FloatOracle) (config : ChainMapperConfig) (track : ℤ)
    (snapshot : ReaperSnapshot) (eq : List (String × FVal)) :
    List ParameterAction × List String × Bool :=
  if eq.isEmpty then ([], [], false)
  else
    match pick_best_plugin snapshot role_keywords_eq with
    | some plugin =>
      let pre :=
        if ¬ plugin.enabled then
          [ParameterAction.enablePlugin track plugin.index plugin.name
            "Enable EQ plugin for tone mapping"]
        else []
      if contains_token plugin.name "reaeq" then
        let mapped := map_eq_reaeq O track plugin eq config.max_eq_points
        (pre ++ mapped.1, mapped.2, false)
      else
        (pre, ["EQ plugin '" ++ plugin.name ++
            "' is not supported by deterministic mapper yet; EQ skipped"], false)
    | none =>
      if config.allow_load_plugins then
        ([ParameterAction.loadPlugin track "ReaEQ (Cockos)" none "Load missing EQ plugin"],
          [], true)
      else ([], ["No suitable EQ plugin found; skipped"], false)

/-- The candidate actions, section warnings and resnapshot flag accumulated
by `ChainMapper::map` before `ensure_prerequisites`/`plan_actions`. -/
def mapCandidates (O : FloatOracle) (config : ChainMapperConfig) (tone : ToneParameters)
    (snapshot : ReaperSnapshot) : List ParameterAction × List String × Bool :=
  let track := snapshot.track_index
  let amp := ampSection track snapshot tone
  let eff := tone.effects.foldl
    (fun (acc : List ParameterAction × List String × Bool) effect =>
      let s := effectSection config track snapshot effect
      (acc.1 ++ s.1, acc.2.1 ++ s.2.1, acc.2.2 || s.2.2))
    ([], [], false)
  let rev := reverbSection config track snapshot tone.reverb
  let del := delaySection config track snapshot tone.delay
  let eqs := eqSection O config track snapshot tone.eq
  (amp.1 ++ eff.1 ++ rev.1 ++ del.1 ++ eqs.1,
    amp.2 ++ eff.2.1 ++ rev.2.1 ++ del.2.1 ++ eqs.2.1,
    eff.2.2 || rev.2.2 || del.2.2 || eqs.2.2)

/-- `chain_mapper.rs::ChainMapper::map`: sections, prerequisite insertion,
planning, summary. -/
def chainMap (O : FloatOracle) (config : ChainMapperConfig) (tone : ToneParameters)
    (snapshot : ReaperSnapshot) : ChainMappingResult :=
  let cand := mapCandidates O config tone snapshot
  let ensured := ensure_prerequisites snapshot cand.1
  let planned := plan_actions O ensured.1
  { actions := planned.1,
    summary := build_summary planned.1 cand.2.2,
    warnings := cand.2.1 ++ ensured.2 ++ planned.2,
    requires_resnapshot := cand.2.2 }

/- ## Tone sanitizer (`tone_sanitizer.rs`) -/

/-- `tone_sanitizer.rs::normalize_token`: lowercase then keep alphanumerics
and underscores (unlike the chain mapper's variant, which drops
underscores). -/
def san_normalize_token (text : String) : String :=
  ⟨(text.data.map Char.toLower).filter fun c => c.isAlphanum || c = '_'⟩

/-- `str::strip_prefix("effect:")` on a group name. -/
def effectGroupRest (group : String) : Option String :=
  if isPrefixCh "effect:".data group.data then some ⟨group.data.drop 7⟩ else none

/-- `tone_sanitizer.rs::is_strict_group`. -/
def is_strict_group (group : String) : Bool :=
  group = "delay" || group = "reverb" || (effectGroupRest group).isSome

/-- `tone_sanitizer.rs::canonical_effect_type`. -/
def canonical_effect_type (effect_type : String) : String :=
  let t := san_normalize_token effect_type
  if t = "noisegate" ∨ t = "gate" ∨ t = "noise_gate" then "noise_gate"
  else if t = "overdrive" ∨ t = "od" ∨ t = "tubescreamer" ∨ t = "screamer" then "overdrive"
  else if t = "distortion" ∨ t = "dist" ∨ t = "fuzz" then "distortion"
  else if t = "compressor" ∨ t = "comp" then "compressor"
  else if t = "chorus" then "chorus"
  else if t = "phaser" then "phaser"
  else effect_type

/-- One `match` table of `canonical_param_key`: ordered arms of accepted
normalized keys and the canonical result. -/
def tableLookup (table : List (List String × String)) (key_norm : String) : Option String :=
  (table.find? fun arm => key_norm ∈ arm.1).map (·.2)

/-- The `amp` arm of `canonical_param_key`. -/
def ampTable : List (List String × String) :=
  [(["gain", "drive", "input", "pregain", "preamp"], "gain"),
   (["bass", "low", "lows"], "bass"),
   (["mid", "middle", "mids"], "mid"),
   (["treble", "treb", "high", "highs"], "treble"),
   (["presence", "pres", "bright"], "presence"),
   (["master", "volume", "level", "output"], "master")]

/-- The noise-gate arm of `canonical_param_key` (gate UIs' `decay` maps to
`release`). -/
def gateTable : List (List String × String) :=
  [(["threshold", "thresh"], "threshold"),
   (["attack", "att"], "attack"),
   (["release", "rel", "decay"], "release")]

/-- The compressor arm of `canonical_param_key`. -/
def compTable : List (List String × String) :=
  [(["threshold", "thresh"], "threshold"),
   (["attack", "att"], "attack"),
   (["release", "rel"], "release"),
   (["ratio"], "ratio"),
   (["mix", "wet", "drywet", "blend"], "mix"),
   (["makeup", "makeupgain", "gain", "output", "level"], "makeup")]

/-- The overdrive arm of `canonical_param_key`. -/
def odTable : List (List String × String) :=
  [(["drive", "gain"], "drive"),
   (["tone", "treble"], "tone"),
   (["level", "output", "volume"], "level")]

/-- The distortion arm of `canonical_param_key`. -/
def distTable : List (List String × String) :=
  [(["drive", "gain"], "drive"),
   (["tone"], "tone"),
   (["level", "output", "volume"], "level"),
   (["low", "lows", "bass"], "low"),
   (["high", "highs", "treble"], "high")]

/-- The chorus arm of `canonical_param_key`. -/
def chorusTable : List (List String × String) :=
  [(["rate"], "rate"),
   (["depth"], "depth"),
   (["mix", "wet", "drywet", "blend"], "mix")]

/-- The reverb arm of `canonical_param_key`. -/
def reverbTable : List (List String × String) :=
  [(["mix", "wet", "drywet", "blend"], "mix"),
   (["roomsize", "room_size", "size"], "room_size"),
   (["predelay", "pre_delay", "pre"], "predelay"),
   (["decay", "time"], "decay"),
   (["highcut", "high_cut", "hicut"], "high_cut"),
   (["lowcut", "low_cut", "locut"], "low_cut")]

/-- The delay arm of `canonical_param_key`. -/
def delayTable : List (List String × String) :=
  [(["mix", "wet", "drywet", "blend"], "mix"),
   (["time", "ms", "seconds", "sec"], "time"),
   (["feedback", "fb"], "feedback")]

/-- The final generic arm of `canonical_param_key`, reached by groups that
match no earlier branch (including `effect:` groups with an unrecognized
effect type, e.g. `phaser`). -/
def genericTable : List (List String × String) :=
  [(["mix", "wet", "drywet", "blend"], "mix"),
   (["time", "ms", "seconds", "sec"], "time"),
   (["feedback", "fb"], "feedback"),
   (["threshold", "thresh"], "threshold"),
   (["attack", "att"], "attack"),
   (["release", "rel"], "release")]

/-- `tone_sanitizer.rs::canonical_param_key`. -/
def canonical_param_key (group key : String) : Option String :=
  let kn := san_normalize_token key
  if group = "amp" then tableLookup ampTable kn
  else
    match effectGroupRest group with
    | some effect_type =>
      let et := san_normalize_token effect_type
      if et = "noise_gate" ∨ et = "noisegate" ∨ et = "gate" then tableLookup gateTable kn
      else if et = "compressor" ∨ et = "comp" then tableLookup compTable kn
      else if et = "overdrive" ∨ et = "od" then tableLookup odTable kn
      else if et = "distortion" ∨ et = "dist" ∨ et = "fuzz" then tableLookup distTable kn
      else if et = "chorus" then tableLookup chorusTable kn
      else tableLookup genericTable kn
    | none =>
      if group = "reverb" then tableLookup reverbTable kn
      else if group = "delay" then tableLookup delayTable kn
      else tableLookup genericTable kn

/-- `HashMap::insert` on the iteration-sequence model: replace in place if
the key is present, append otherwise. -/
def listInsert (l : List (String × FVal)) (k : String) (v : FVal) : List (String × FVal) :=
  if l.any (fun kv => kv.1 = k) then l.map fun kv => if kv.1 = k then (k, v) else kv
  else l ++ [(k, v)]

/-- `f64::EPSILON` = 2⁻⁵². -/
def epsQ : ℚ := mkRat 1 (2 ^ 52)

/-- One step of `sanitize_unit_map`'s loop over `(k, v)` entries, acting on
the `(out, warnings)` accumulator. -/
def sanitizeUnitStep (O : FloatOracle) (group : String) (max_keys : ℕ)
    (acc : List (String × FVal) × List String) (kv : String × FVal) :
    List (String × FVal) × List String :=
  match kv.2 with
  | .fin q =>
    let ck? :=
      match canonical_param_key group kv.1 with
      | some ck => some ck
      | none => if is_strict_group group then none else some kv.1
    match ck? with
    | none =>
      (acc.1, acc.2 ++
        [group ++ ": dropped unsupported key '" ++ kv.1 ++ "' (strict vocabulary)"])
    | some ck =>
      let clamped := min 1 (max 0 q)
      let w :=
        if |ratSub clamped q| > epsQ then
          [group ++ ": clamped '" ++ ck ++ "' from " ++ O.fmt (.fixed 3) (.fin q) ++
            " to " ++ O.fmt (.fixed 3) (.fin clamped)]
        else []
      let out := if acc.1.length < max_keys then listInsert acc.1 ck (.fin clamped) else acc.1
      (out, acc.2 ++ w)
  | _ =>
    (acc.1, acc.2 ++ [group ++ ": dropped non-finite value for '" ++ kv.1 ++ "'"])

/-- `tone_sanitizer.rs::sanitize_unit_map`. -/
def sanitize_unit_map (O : FloatOracle) (map : List (String × FVal)) (group : String)
    (max_keys : ℕ) : List (String × FVal) × List String :=
  let folded := map.foldl (sanitizeUnitStep O group max_keys) ([], [])
  (folded.1,
    folded.2 ++
      if folded.1.length > max_keys then
        [group ++ ": too many keys; capped to " ++ toString max_keys]
      else [])

/-- `collect::<HashMap<_, _>>()` on a pair sequence. -/
def collectPairs (l : List (String × FVal)) : List (String × FVal) :=
  l.foldl (fun acc kv => listInsert acc kv.1 kv.2) []

/-- `tone_sanitizer.rs::sanitize_eq_map`: drop non-finite values, clamp to
±12 dB, and past `max_points` keys keep the top points by absolute dB. -/
def sanitize_eq_map (O : FloatOracle) (map : List (String × FVal)) (max_points : ℕ) :
    List (String × FVal) × List String :=
  let retained := map.filter fun kv => kv.2.isFinite
  let w1 := (map.filter fun kv => ¬ kv.2.isFinite).map fun kv =>
    "eq: dropped non-finite value for '" ++ kv.1 ++ "'"
  let clamped := retained.map fun kv => (kv.1, kv.2.clampQ (-12) 12)
  let w2 := retained.filterMap fun kv =>
    match kv.2 with
    | .fin q =>
      let c := min 12 (max (-12) q)
      if |ratSub c q| > epsQ then
        some ("eq: clamped '" ++ kv.1 ++ "' from " ++ O.fmt (.fixedSigned 1) (.fin q) ++
          " dB to " ++ O.fmt (.fixedSigned 1) (.fin c) ++ " dB")
      else none
    | _ => none
  if clamped.length ≤ max_points then (clamped, w1 ++ w2)
  else
    ((collectPairs ((List.insertionSort absDescLE clamped).take max_points)),
      w1 ++ w2 ++ ["eq: too many points; keeping top " ++ toString max_points ++ " by |dB|"])

/-- `tone_sanitizer.rs::sanitize_effects`. -/
def sanitize_effects (O : FloatOracle) (effects : List EffectParameters)
    (max_effects max_params_per_effect : ℕ) : List EffectParameters × List String :=
  let truncWarn :=
    if effects.length > max_effects then
      ["effects: " ++ toString effects.length ++ " entries provided; keeping first " ++
        toString max_effects]
    else []
  let effects1 := effects.take max_effects
  let processed := effects1.map fun eff =>
    let newType := canonical_effect_type eff.effect_type
    let typeWarn :=
      if newType ≠ eff.effect_type then
        ["effects: normalized effect_type '" ++ eff.effect_type ++ "' -> '" ++ newType ++ "'"]
      else []
    let sm := sanitize_unit_map O eff.parameters ("effect:" ++ newType) max_params_per_effect
    ((⟨newType, sm.1⟩ : EffectParameters), typeWarn ++ sm.2)
  let effects2 := processed.map Prod.fst
  let kept := effects2.filter fun e => ¬ e.parameters.isEmpty
  let dropWarn :=
    if kept.length ≠ effects2.length then
      ["effects: dropped " ++ toString (effects2.length - kept.length) ++
        " empty effect(s) after sanitization"]
    else []
  (kept, truncWarn ++ (processed.map Prod.snd).flatten ++ dropWarn)

/-- `tone_sanitizer.rs::SanitizedTone`. -/
structure SanitizedTone where
  parameters : ToneParameters
  warnings : List String
deriving DecidableEq, Repr

/-- `tone_sanitizer.rs::sanitize`. -/
def sanitize (O : FloatOracle) (parameters : ToneParameters) : SanitizedTone :=
  let amp := sanitize_unit_map O parameters.amp "amp" 32
  let reverb := sanitize_unit_map O parameters.reverb "reverb" 32
  let delay := sanitize_unit_map O parameters.delay "delay" 32
  let eqm := sanitize_eq_map O parameters.eq 16
  let eff := sanitize_effects O parameters.effects 5 24
  { parameters :=
      { amp := amp.1, eq := eqm.1, effects := eff.1, reverb := reverb.1, delay := delay.1 },
    warnings := amp.2 ++ reverb.2 ++ delay.2 ++ eqm.2 ++ eff.2 }

/- ## Relations and auxiliary definitions used by the theorem statements -/

/-- Non-strict lexicographic comparison of the observable part of
`plan_actions`' sort key: `(type_rank, plugin_rank, set_rank)`. -/
def actTupleLE (a b : ParameterAction) : Prop :=
  typeRank a < typeRank b ∨
    (typeRank a = typeRank b ∧
      (pluginRank a < pluginRank b ∨
        (pluginRank a = pluginRank b ∧ setRank a ≤ setRank b)))

/-- Strict lexicographic comparison of `(type_rank, plugin_rank, set_rank)`. -/
def actTupleLT (a b : ParameterAction) : Prop :=
  typeRank a < typeRank b ∨
    (typeRank a = typeRank b ∧
      (pluginRank a < pluginRank b ∨
        (pluginRank a = pluginRank b ∧ setRank a < setRank b)))

/-- The entries of a unit map that survive `sanitize_unit_map` before the
32-key cap, in iteration order: finite values, canonicalized (strict groups
drop unknown keys), clamped to `[0, 1]`. -/
def survivorsList (group : String) (map : List (String × FVal)) : List (String × FVal) :=
  map.filterMap fun kv =>
    match kv.2 with
    | .fin q =>
      (match canonical_param_key group kv.1 with
        | some ck => some ck
        | none => if is_strict_group group then none else some kv.1).map
        fun ck => (ck, FVal.fin (min 1 (max 0 q)))
    | _ => none

/-- An entry of a unit map that `sanitize_unit_map` maps to itself: a
finite value already in `[0, 1]` under a key that canonicalizes to itself
(or is kept unknown in a non-strict group). -/
def GoodEntry (group : String) (kv : String × FVal) : Prop :=
  (∃ q, kv.2 = FVal.fin q ∧ 0 ≤ q ∧ q ≤ 1) ∧
  (canonical_param_key group kv.1 = some kv.1 ∨
    (canonical_param_key group kv.1 = none ∧ is_strict_group group = false))

/- ## Concrete fixtures (used by closed evaluation theorems and witnesses) -/

/-- The `"Gain"` parameter of the chain-mapper unit-test snapshot. -/
def gainParam : ReaperParameter :=
  { index := 0, name := "Gain", current_value := .fin (mkRat 1 2), display_value := "50%",
    unit := "%", format_hint := "percentage" }

/-- The `"Bass"` parameter of the chain-mapper unit-test snapshot. -/
def bassParam : ReaperParameter :=
  { index := 1, name := "Bass", current_value := .fin (mkRat 1 2), display_value := "0.0 dB",
    unit := "dB", format_hint := "decibel" }

/-- The amp plugin of the chain-mapper unit-test snapshot. -/
def archetypePlugin : ReaperPlugin :=
  { index := 0, name := "VST3: Neural DSP Archetype Gojira", enabled := true,
    parameters := [gainParam, bassParam] }

/-- The chain-mapper unit-test snapshot (`fake_snapshot`). -/
def fakeSnapshot : ReaperSnapshot :=
  { track_index := 0, track_name := "Guitar", plugins := [archetypePlugin] }

/-- An amp map iterated `gain` first. -/
def toneGainBass : ToneParameters :=
  { amp := [("gain", .fin 1), ("bass", .fin 0)], eq := [], effects := [],
    reverb := [], delay := [] }

/-- The same amp map as `toneGainBass` iterated in the opposite order. -/
def toneBassGain : ToneParameters :=
  { amp := [("bass", .fin 0), ("gain", .fin 1)], eq := [], effects := [],
    reverb := [], delay := [] }

/-- Configuration with plugin loading allowed (the default). -/
def cfgLoad : ChainMapperConfig := { allow_load_plugins := true, max_eq_points := 4 }

/-- Configuration with plugin loading disallowed. -/
def cfgNoLoad : ChainMapperConfig := { allow_load_plugins := false, max_eq_points := 4 }

/-- An `"EQ Bypass"` gate parameter currently bypassed (value 1). -/
def bypassParam : ReaperParameter :=
  { index := 10, name := "EQ Bypass", current_value := .fin 1, display_value := "",
    unit := "", format_hint := "" }

/-- An `"EQ Gain"` parameter in the gated section. -/
def eqGainParam : ReaperParameter :=
  { index := 11, name := "EQ Gain", current_value := .fin 0, display_value := "",
    unit := "", format_hint := "" }

/-- An enabled amp plugin with a bypassed EQ section. -/
def ampSimGatePlugin : ReaperPlugin :=
  { index := 0, name := "Amp Sim X", enabled := true,
    parameters := [bypassParam, eqGainParam] }

/-- Snapshot with the gated amp plugin. -/
def gateSnap : ReaperSnapshot :=
  { track_index := 0, track_name := "G", plugins := [ampSimGatePlugin] }

/-- A one-knob amp tone (`gain` = 1). -/
def toneGain1 : ToneParameters :=
  { amp := [("gain", .fin 1)], eq := [], effects := [], reverb := [], delay := [] }

/-- A one-knob amp tone with an out-of-range value. -/
def toneGain999 : ToneParameters :=
  { amp := [("gain", .fin 999)], eq := [], effects := [], reverb := [], delay := [] }

/-- A disabled amp plugin exposing `"Gain"`. -/
def disabledAmpPlugin : ReaperPlugin :=
  { index := 0, name := "Amp Sim X", enabled := false, parameters := [gainParam] }

/-- Snapshot with only the disabled amp plugin. -/
def disSnap : ReaperSnapshot :=
  { track_index := 0, track_name := "G", plugins := [disabledAmpPlugin] }

/-- A `"Band 1 Freq"` parameter. -/
def band1FreqParam : ReaperParameter :=
  { index := 0, name := "Band 1 Freq", current_value := .fin 0, display_value := "",
    unit := "", format_hint := "" }

/-- A `"Band 1 Gain"` parameter. -/
def band1GainParam : ReaperParameter :=
  { index := 1, name := "Band 1 Gain", current_value := .fin 0, display_value := "",
    unit := "", format_hint := "" }

/-- An EQ plugin exposing the band-parameter shape whose name does not
contain `"reaeq"`. -/
def graphicEqPlugin : ReaperPlugin :=
  { index := 0, name := "Graphic EQ", enabled := true,
    parameters := [band1FreqParam, band1GainParam] }

/-- Snapshot with only the band-shaped non-ReaEQ plugin. -/
def geqSnap : ReaperSnapshot :=
  { track_index := 0, track_name := "G", plugins := [graphicEqPlugin] }

/-- A tone with a single parsable EQ point. -/
def toneEq800 : ToneParameters :=
  { amp := [], eq := [("800hz", .fin (-4))], effects := [], reverb := [], delay := [] }

/-- A ReaEQ-named plugin with the band-parameter shape. -/
def reaeqPlugin : ReaperPlugin :=
  { index := 1, name := "ReaEQ (Cockos)", enabled := true,
    parameters := [band1FreqParam, band1GainParam] }

/-- A snapshot with no plugins at all. -/
def emptySnap : ReaperSnapshot := { track_index := 0, track_name := "G", plugins := [] }

/-- A tone whose effects list holds two `noise_gate` entries. -/
def toneTwoGates : ToneParameters :=
  { amp := [], eq := [], effects := [⟨"noise_gate", []⟩, ⟨"noise_gate", []⟩],
    reverb := [], delay := [] }

/-- 33 distinct amp keys unknowable to the canonicalizer, all with value 1. -/
def keys33 : List (String × FVal) :=
  (List.range 33).map fun i => ("p" ++ toString i, FVal.fin 1)

/-- A ReaEQ-named plugin WITHOUT the band-parameter shape (its only
parameter is a plain `"Gain"`). -/
def reaeqNoBandPlugin : ReaperPlugin :=
  { index := 2, name := "ReaEQ (Cockos)", enabled := true, parameters := [gainParam] }

/-- Snapshot with only the band-less ReaEQ-named plugin. -/
def reaeqNoBandSnap : ReaperSnapshot :=
  { track_index := 0, track_name := "G", plugins := [reaeqNoBandPlugin] }

/- ## Ordering machinery for `plan_actions` -/

instance : IsTotal (ℕ × ParameterAction) pairKeyLE :=
  ⟨by
    intro a b
    simp only [pairKeyLE, pairKeyLEB, decide_eq_true_eq]
    omega⟩

instance : IsTrans (ℕ × ParameterAction) pairKeyLE :=
  ⟨by
    intro a b c hab hbc
    simp only [pairKeyLE, pairKeyLEB, decide_eq_true_eq] at hab hbc ⊢
    omega⟩

/-- The sort of `plan_actions` is a permutation. -/
theorem sortActions_perm (l : List ParameterAction) : List.Perm (sortActions l) l := by
  have h := (List.perm_insertionSort pairKeyLE l.enum).map Prod.snd
  rwa [List.enum_map_snd] at h

/-- The key comparison entails the observable triple comparison. -/
theorem pairKeyLE_tuple {x y : ℕ × ParameterAction} (h : pairKeyLE x y) :
    actTupleLE x.2 y.2 := by
  simp only [pairKeyLE, pairKeyLEB, decide_eq_true_eq] at h
  unfold actTupleLE
  omega

/-- The sort of `plan_actions` emits actions in nondecreasing
`(type_rank, plugin_rank, set_rank)` order. -/
theorem sortActions_pairwise (l : List ParameterAction) :
    (sortActions l).Pairwise actTupleLE := by
  have hs : (List.insertionSort pairKeyLE l.enum).Pairwise pairKeyLE :=
    List.sorted_insertionSort pairKeyLE l.enum
  exact hs.map Prod.snd (fun a b hab => pairKeyLE_tuple hab)

/-- A strictly smaller element cannot be non-strictly larger. -/
theorem actTupleLT_asymm {a b : ParameterAction} (h : actTupleLT a b) : ¬ actTupleLE b a := by
  unfold actTupleLT at h
  unfold actTupleLE
  omega

/-- In a list pairwise-sorted by the observable triple, any member strictly
smaller than the element at position `i` occurs at a position before `i`. -/
theorem pairwise_exists_earlier {S : List ParameterAction} (hS : S.Pairwise actTupleLE)
    {i : ℕ} (hi : i < S.length) {y : ParameterAction} (hy : y ∈ S)
    (hlt : actTupleLT y (S.get ⟨i, hi⟩)) :
    ∃ j, ∃ hj : j < S.length, j < i ∧ S.get ⟨j, hj⟩ = y := by
  obtain ⟨⟨j, hj⟩, hget⟩ := List.mem_iff_get.mp hy
  refine ⟨j, hj, ?_, hget⟩
  by_contra hji
  push_neg at hji
  rcases eq_or_lt_of_le hji with hij | hij
  · rw [← hget] at hlt
    have heq : S.get ⟨i, hi⟩ = S.get ⟨j, hj⟩ := by
      congr 1
      exact Fin.ext hij
    rw [← heq] at hlt
    unfold actTupleLT at hlt
    omega
  · have hrel := (List.pairwise_iff_get.mp hS) ⟨i, hi⟩ ⟨j, hj⟩ hij
    rw [hget] at hrel
    exact actTupleLT_asymm hlt hrel

/- ## Deduplication lemmas -/

/-- Deduplication only removes elements. -/
theorem mem_of_mem_dedupSets {a : ParameterAction} :
    ∀ {l : List ParameterAction}, a ∈ dedupSets l → a ∈ l := by
  intro l h
  induction l with
  | nil => simp [dedupSets] at h
  | cons b rest ih =>
    rcases hk : setDedupKey b with _ | k
    · simp only [dedupSets, hk] at h
      rcases List.mem_cons.mp h with h | h
      · exact h ▸ List.mem_cons_self b rest
      · exact List.mem_cons_of_mem b (ih h)
    · simp only [dedupSets, hk] at h
      by_cases hc : (rest.any fun x => decide (setDedupKey x = some k)) = true
      · rw [if_pos hc] at h
        exact List.mem_cons_of_mem b (ih h)
      · rw [if_neg hc] at h
        rcases List.mem_cons.mp h with h | h
        · exact h ▸ List.mem_cons_self b rest
        · exact List.mem_cons_of_mem b (ih h)

/-- Actions that are not `SetParameter` survive deduplication. -/
theorem mem_dedupSets_of_nonset {a : ParameterAction} (hk : setDedupKey a = none) :
    ∀ {l : List ParameterAction}, a ∈ l → a ∈ dedupSets l := by
  intro l h
  induction l with
  | nil => simp at h
  | cons b rest ih =>
    rcases List.mem_cons.mp h with hb | hb
    · subst hb
      simp only [dedupSets, hk]
      exact List.mem_cons_self a _
    · rcases hkb : setDedupKey b with _ | k
      · simp only [dedupSets, hkb]
        exact List.mem_cons_of_mem b (ih hb)
      · simp only [dedupSets, hkb]
        by_cases hc : (rest.any fun x => decide (setDedupKey x = some k)) = true
        · rw [if_pos hc]
          exact ih hb
        · rw [if_neg hc]
          exact List.mem_cons_of_mem b (ih hb)

/-- The last `SetParameter` with a given key survives deduplication. -/
theorem mem_dedupSets_append_last {a : ParameterAction} {k : ℤ × ℤ × ℤ}
    (hk : setDedupKey a = some k) {l2 : List ParameterAction}
    (h2 : ∀ b ∈ l2, setDedupKey b ≠ some k) :
    ∀ l1 : List ParameterAction, a ∈ dedupSets (l1 ++ a :: l2) := by
  intro l1
  induction l1 with
  | nil =>
    simp only [List.nil_append, dedupSets, hk]
    have hc : ¬ (l2.any fun x => decide (setDedupKey x = some k)) = true := by
      simp only [List.any_eq_true, decide_eq_true_eq]
      rintro ⟨b, hb, hbk⟩
      exact h2 b hb hbk
    rw [if_neg hc]
    exact List.mem_cons_self a _
  | cons c l1' ih =>
    rw [List.cons_append]
    rcases hkc : setDedupKey c with _ | kc
    · simp only [dedupSets, hkc]
      exact List.mem_cons_of_mem c ih
    · simp only [dedupSets, hkc]
      by_cases hc : ((l1' ++ a :: l2).any fun x => decide (setDedupKey x = some kc)) = true
      · rw [if_pos hc]
        exact ih
      · rw [if_neg hc]
        exact List.mem_cons_of_mem c ih

/- ## Value-hygiene lemmas -/

/-- In-range finite values pass hygiene unchanged and silently. -/
theorem hygieneValue_id (O : FloatOracle) {q : ℚ} (h0 : ¬ q < 0) (h1 : ¬ q > 1) :
    hygieneValue O (.fin q) = (.fin q, []) := by
  simp [hygieneValue, h0, h1]

/-- Every hygiene output value is a finite rational in `[0, 1]`. -/
theorem hygieneValue_range (O : FloatOracle) (v : FVal) :
    ∃ q, (hygieneValue O v).1 = FVal.fin q ∧ 0 ≤ q ∧ q ≤ 1 := by
  cases v with
  | fin q =>
    by_cases h0 : q < 0
    · exact ⟨0, by simp [hygieneValue, h0], le_refl 0, by norm_num⟩
    · by_cases h1 : q > 1
      · exact ⟨1, by simp [hygieneValue, h0, h1], by norm_num, le_refl 1⟩
      · exact ⟨q, by simp [hygieneValue, h0, h1], le_of_not_lt h0, le_of_not_lt h1⟩
  | nan =>
    refine ⟨mkRat 1 2, rfl, ?_, ?_⟩ <;> · rw [Rat.mkRat_eq_div]; norm_num
  | inf =>
    refine ⟨mkRat 1 2, rfl, ?_, ?_⟩ <;> · rw [Rat.mkRat_eq_div]; norm_num
  | ninf =>
    refine ⟨mkRat 1 2, rfl, ?_, ?_⟩ <;> · rw [Rat.mkRat_eq_div]; norm_num

/-- Hygiene does not change the dedup key of an action. -/
theorem setDedupKey_hygieneAction (O : FloatOracle) (a : ParameterAction) :
    setDedupKey (hygieneAction O a) = setDedupKey a := by
  cases a <;> rfl

/-- Hygiene leaves gate-opening toggles unchanged: their values are the
exact constants 0 and 1. -/
theorem hygieneAction_gateOpen (O : FloatOracle) (t pi qi : ℤ) (n r : String)
    (g : GateParam) :
    hygieneAction O (.setParameter t pi qi n (gate_enable_value g) r) =
      .setParameter t pi qi n (gate_enable_value g) r := by
  have h0 : hygieneValue O (.fin 0) = (.fin 0, []) :=
    hygieneValue_id O (q := 0) (by norm_num) (by norm_num)
  have h1 : hygieneValue O (.fin 1) = (.fin 1, []) :=
    hygieneValue_id O (q := 1) (by norm_num) (by norm_num)
  cases hk : g.kind <;> simp [hygieneAction, gate_enable_value, hk, h0, h1]

/-- Shape of a hygiene pre-image of a `SetParameter`. -/
theorem hygieneAction_shape {O : FloatOracle} {a : ParameterAction} {t pi qi : ℤ}
    {n : String} {v : FVal} {r : String}
    (h : hygieneAction O a = .setParameter t pi qi n v r) :
    ∃ v0, a = .setParameter t pi qi n v0 r ∧ v = (hygieneValue O v0).1 := by
  cases a with
  | setParameter t' pi' qi' n' v' r' =>
    simp only [hygieneAction, ParameterAction.setParameter.injEq] at h
    obtain ⟨ht, hpi, hqi, hn, hv, hr⟩ := h
    subst ht
    subst hpi
    subst hqi
    subst hn
    subst hr
    exact ⟨v', rfl, hv.symm⟩
  | enablePlugin _ _ _ _ => simp [hygieneAction] at h
  | loadPlugin _ _ _ _ => simp [hygieneAction] at h

/- ## Planner membership lemmas -/

/-- Everything the planner emits is the hygiene image of an input action. -/
theorem mem_plan {O : FloatOracle} {l : List ParameterAction} {a : ParameterAction}
    (h : a ∈ (plan_actions O l).1) : a ∈ l.map (hygieneAction O) :=
  mem_of_mem_dedupSets ((sortActions_perm _).mem_iff.mp h)

/-- Non-`SetParameter` hygiene images survive the planner. -/
theorem mem_plan_of_nonset {O : FloatOracle} {l : List ParameterAction} {a : ParameterAction}
    (hk : setDedupKey a = none) (h : a ∈ l.map (hygieneAction O)) :
    a ∈ (plan_actions O l).1 :=
  (sortActions_perm _).mem_iff.mpr (mem_dedupSets_of_nonset hk h)

/-- The planner's output action list in terms of its passes. -/
theorem chainMap_actions (O : FloatOracle) (config : ChainMapperConfig)
    (tone : ToneParameters) (snapshot : ReaperSnapshot) :
    (chainMap O config tone snapshot).actions =
      (plan_actions O
        (ensure_prerequisites snapshot (mapCandidates O config tone snapshot).1).1).1 := rfl

/-- Comparison of observable triples entails comparison of type ranks. -/
theorem actTupleLE_typeRank {a b : ParameterAction} (h : actTupleLE a b) :
    typeRank a ≤ typeRank b := by
  unfold actTupleLE at h
  omega

/-- C2: for every configuration, tone specification and snapshot, the
emitted action list is ordered by the planner's 4-tuple
`(type_rank, plugin_rank, set_rank, input_index)`: consecutive pairs are
nondecreasing in the observable `(type_rank, plugin_rank, set_rank)` triple
(the input index breaks the remaining ties), and in particular type ranks
are nondecreasing, so every `LoadPlugin` (rank 0) precedes every
`EnablePlugin` (rank 1), which precedes every `SetParameter` (rank 2). -/
theorem claim_C2_total_order (O : FloatOracle) (config : ChainMapperConfig)
    (tone : ToneParameters) (snapshot : ReaperSnapshot) :
    ((chainMap O config tone snapshot).actions.Pairwise actTupleLE) ∧
    ((chainMap O config tone snapshot).actions.Pairwise
      fun a b => typeRank a ≤ typeRank b) := by
  rw [chainMap_actions]
  refine ⟨sortActions_pairwise _, ?_⟩
  exact (sortActions_pairwise _).imp fun h => actTupleLE_typeRank h

/-- C3: every `SetParameter` in the returned result carries a finite value
in `[0, 1]`; the hygiene pass replaces a non-finite candidate by 0.5 with a
warning and clamps an out-of-range finite candidate to the nearer bound
with a warning. -/
theorem claim_C3_value_hygiene :
    (∀ (O : FloatOracle) (config : ChainMapperConfig) (tone : ToneParameters)
      (snapshot : ReaperSnapshot) (a : ParameterAction),
      a ∈ (chainMap O config tone snapshot).actions →
      ∀ (t pi qi : ℤ) (n : String) (v : FVal) (r : String),
        a = .setParameter t pi qi n v r →
        ∃ q, v = FVal.fin q ∧ 0 ≤ q ∧ q ≤ 1) ∧
    (∀ (O : FloatOracle) (v : FVal), v.isFinite = false →
      hygieneValue O v =
        (FVal.fin (mkRat 1 2),
          ["Non-finite parameter value encountered; clamping to 0.5"])) ∧
    (∀ (O : FloatOracle) (q : ℚ), q < 0 →
      hygieneValue O (.fin q) =
        (FVal.fin 0, ["Value " ++ O.fmt .display (.fin q) ++ " < 0.0; clamped to 0.0"])) ∧
    (∀ (O : FloatOracle) (q : ℚ), 1 < q →
      hygieneValue O (.fin q) =
        (FVal.fin 1, ["Value " ++ O.fmt .display (.fin q) ++ " > 1.0; clamped to 1.0"])) := by
  refine ⟨?_, ?_, ?_, ?_⟩
  · intro O config tone snapshot a ha t pi qi n v r hshape
    rw [chainMap_actions] at ha
    obtain ⟨a0, _, ha0⟩ := List.mem_map.mp (mem_plan ha)
    subst hshape
    obtain ⟨v0, _, hv⟩ := hygieneAction_shape ha0
    obtain ⟨q, hq, h0, h1⟩ := hygieneValue_range O v0
    exact ⟨q, hv.trans hq, h0, h1⟩
  · intro O v hv
    cases v with
    | fin q => simp [FVal.isFinite] at hv
    | nan => rfl
    | inf => rfl
    | ninf => rfl
  · intro O q hq
    simp [hygieneValue, hq]
  · intro O q hq
    have h0 : ¬ q < 0 := by linarith
    simp [hygieneValue, h0, hq]

/-- Witness for C3 at a concrete run: the tone requests gain 999 and the
planner emits the clamped value 1; the hygiene equations are exercised at
`NaN`, −1 and 2. -/
theorem claim_C3_value_hygiene_witness :
    (∃ q, FVal.fin 1 = FVal.fin q ∧ 0 ≤ q ∧ q ≤ 1) ∧
    hygieneValue trivOracle FVal.nan =
      (FVal.fin (mkRat 1 2), ["Non-finite parameter value encountered; clamping to 0.5"]) ∧
    hygieneValue trivOracle (FVal.fin (-1)) =
      (FVal.fin 0,
        ["Value " ++ trivOracle.fmt .display (.fin (-1)) ++ " < 0.0; clamped to 0.0"]) ∧
    hygieneValue trivOracle (FVal.fin 2) =
      (FVal.fin 1,
        ["Value " ++ trivOracle.fmt .display (.fin 2) ++ " > 1.0; clamped to 1.0"]) :=
  ⟨claim_C3_value_hygiene.1 trivOracle cfgNoLoad toneGain999 fakeSnapshot
      (.setParameter 0 0 0 "Gain" (.fin 1) "amp :: gain -> Gain") (by decide)
      0 0 0 "Gain" (.fin 1) "amp :: gain -> Gain" rfl,
    claim_C3_value_hygiene.2.1 trivOracle .nan rfl,
    claim_C3_value_hygiene.2.2.1 trivOracle (-1) (by norm_num),
    claim_C3_value_hygiene.2.2.2 trivOracle 2 (by norm_num)⟩

/-- C1: the mapper is NOT bit-identical across runs and machines.  The two
tones below denote the same amp `HashMap` (their entry sequences are
permutations of one another; a Rust `HashMap`'s iteration order is
unspecified and differs between processes), all other fields are equal,
yet `map` returns differently ordered action lists, because the
final sort's `input_index` tiebreak inherits the iteration order of
`map_param_group`'s `HashMap` loop.  This contradicts the mapper's own
stated goal (`chain_mapper.rs` line 3: deterministic mapping). -/
theorem claim_C1_hashmap_iteration_leak :
    List.Perm toneGainBass.amp toneBassGain.amp ∧
    toneGainBass.eq = toneBassGain.eq ∧
    toneGainBass.effects = toneBassGain.effects ∧
    toneGainBass.reverb = toneBassGain.reverb ∧
    toneGainBass.delay = toneBassGain.delay ∧
    (chainMap trivOracle cfgNoLoad toneGainBass fakeSnapshot).actions ≠
      (chainMap trivOracle cfgNoLoad toneBassGain fakeSnapshot).actions :=
  ⟨by
      show List.Perm [("gain", FVal.fin 1), ("bass", FVal.fin 0)]
        [("bass", FVal.fin 0), ("gain", FVal.fin 1)]
      exact List.Perm.swap _ _ _,
    rfl, rfl, rfl, rfl, by decide⟩

/-- C10: deduplication applies only to `SetParameter` actions: a tone with
two `noise_gate` effects against a snapshot with no gate-role plugin and
loading allowed yields two identical `LoadPlugin` actions for
`"ReaGate (Cockos)"`. -/
theorem claim_C10_duplicate_loads :
    (chainMap trivOracle cfgLoad toneTwoGates emptySnap).actions =
      [ParameterAction.loadPlugin 0 "ReaGate (Cockos)" none
          "Load missing effect plugin for 'noise_gate'",
        ParameterAction.loadPlugin 0 "ReaGate (Cockos)" none
          "Load missing effect plugin for 'noise_gate'"] ∧
    (chainMap trivOracle cfgLoad toneTwoGates emptySnap).requires_resnapshot = true := by
  decide

/-- C6 counterexample: the chosen EQ plugin `"Graphic EQ"` exposes
`Band 1 Freq` and `Band 1 Gain` and the tone has a parsable EQ key, yet the
mapper emits no action at all (the dispatch tests the plugin NAME for
`"reaeq"`, not the band-parameter shape) and only the unsupported-EQ
warning. -/
theorem claim_C6_counterexample :
    pick_best_plugin geqSnap role_keywords_eq = some graphicEqPlugin ∧
    (graphicEqPlugin.parameters.any fun p => (isBandFreq p).isSome) = true ∧
    (graphicEqPlugin.parameters.any fun p => (isBandGain p).isSome) = true ∧
    (∃ kv ∈ toneEq800.eq, (parse_frequency_hz kv.1).isSome) ∧
    (chainMap trivOracle cfgLoad toneEq800 geqSnap).actions = [] ∧
    (chainMap trivOracle cfgLoad toneEq800 geqSnap).warnings =
      ["EQ plugin 'Graphic EQ' is not supported by deterministic mapper yet; EQ skipped"] := by
  decide

/-- C7 counterexample: `"2khzx"` ends in neither `"hz"` nor `"khz"` (even
after trimming, lowercasing and space-stripping), yet `parse_frequency_hz`
returns 2000 Hz, because the implementation searches for the FIRST
occurrence of `"khz"` instead of requiring a suffix. -/
theorem claim_C7_counterexample :
    strEndsWith (⟨stripFreqLabel "2khzx"⟩ : String) "hz" = false ∧
    strEndsWith (⟨stripFreqLabel "2khzx"⟩ : String) "khz" = false ∧
    parse_frequency_hz "2khzx" = some (FVal.fin 2000) := by
  decide

set_option maxRecDepth 8000 in
/-- C8 counterexample: `keys33.reverse` is a permutation of `keys33`, i.e.
another possible iteration order of the same 33-entry amp `HashMap` (all
33 entries survive sanitization), yet sanitizing it drops the
first-inserted key `"p0"`: the cap keeps the first 32 keys in ITERATION
order, which for a Rust `HashMap` is unspecified and unrelated to
insertion order. -/
theorem claim_C8_counterexample :
    List.Perm keys33.reverse keys33 ∧
    ("p0", FVal.fin 1) ∈ keys33 ∧
    "p0" ∈ ((survivorsList "amp" keys33).take 32).map Prod.fst ∧
    ¬ "p0" ∈ ((sanitize_unit_map trivOracle keys33.reverse "amp" 32).1.map Prod.fst) :=
  ⟨List.reverse_perm keys33, by decide, by decide, by decide⟩

/- ## ensure_prerequisites machinery -/

/-- Helper: the last element of a list is a member. -/
theorem mem_of_getLastQ {α : Type} : ∀ {l : List α} {a : α}, l.getLast? = some a → a ∈ l := by
  intro l
  induction l with
  | nil => intro a h; simp at h
  | cons b rest ih =>
    intro a h
    cases rest with
    | nil =>
      simp only [List.getLast?_singleton, Option.some.injEq] at h
      exact h ▸ List.mem_singleton_self b
    | cons c rest' =>
      rw [List.getLast?_cons_cons] at h
      exact List.mem_cons_of_mem b (ih h)

/-- A plugin known to exist at an index with every occurrence disabled
makes the `plugin_enabled` lookup answer `Some(false)`. -/
theorem pluginEnabledLookup_false {snapshot : ReaperSnapshot} {pi : ℤ}
    (hex : ∃ p ∈ snapshot.plugins, p.index = pi)
    (hdis : ∀ p ∈ snapshot.plugins, p.index = pi → p.enabled = false) :
    pluginEnabledLookup snapshot pi = some false := by
  unfold pluginEnabledLookup
  obtain ⟨p, hp, hpi⟩ := hex
  have hne : snapshot.plugins.filter (fun p => decide (p.index = pi)) ≠ [] := by
    intro hnil
    have : p ∈ snapshot.plugins.filter (fun p => decide (p.index = pi)) :=
      List.mem_filter.mpr ⟨hp, by simp [hpi]⟩
    rw [hnil] at this
    simp at this
  obtain ⟨q, hq⟩ := Option.isSome_iff_exists.mp (by
    rw [List.getLast?_isSome]
    exact hne)
  have hqf := mem_of_getLastQ hq
  have hqp : q ∈ snapshot.plugins := (List.mem_filter.mp hqf).1
  have hqi : q.index = pi := by
    have := (List.mem_filter.mp hqf).2
    simpa using this
  rw [hq]
  simp [hdis q hqp hqi]

/-- `has_enable` as an existence statement. -/
theorem exists_enable_of_hasEnableFor {actions : List ParameterAction} {pi : ℤ}
    (h : hasEnableFor actions pi = true) :
    ∃ tr pn rs, (ParameterAction.enablePlugin tr pi pn rs) ∈ actions := by
  unfold hasEnableFor at h
  rw [List.any_eq_true] at h
  obtain ⟨a, ha, hpa⟩ := h
  cases a with
  | setParameter _ _ _ _ _ _ => simp at hpa
  | enablePlugin tr i pn rs =>
    simp only [decide_eq_true_eq] at hpa
    exact ⟨tr, pn, rs, hpa ▸ ha⟩
  | loadPlugin _ _ _ _ => simp at hpa

/-- A `SetParameter` on a disabled plugin with no pre-existing enable puts
its plugin index into the `needs_enable` set. -/
theorem mem_needsEnableList {snapshot : ReaperSnapshot} {actions : List ParameterAction}
    {t pi qi : ℤ} {n : String} {v : FVal} {r : String}
    (hmem : (ParameterAction.setParameter t pi qi n v r) ∈ actions)
    (hlook : pluginEnabledLookup snapshot pi = some false)
    (hhas : ¬ hasEnableFor actions pi = true) :
    pi ∈ needsEnableList snapshot actions := by
  unfold needsEnableList
  rw [List.mem_dedup, List.mem_filterMap]
  exact ⟨_, hmem, if_pos ⟨hlook, hhas⟩⟩

/-- `find?` succeeds when a satisfying element exists. -/
theorem findQ_isSome_of_exists {α : Type} {p : α → Bool} :
    ∀ {l : List α}, (∃ x ∈ l, p x = true) → (l.find? p).isSome = true := by
  intro l
  induction l with
  | nil => rintro ⟨x, hx, _⟩; simp at hx
  | cons b rest ih =>
    rintro ⟨x, hx, hpx⟩
    rcases List.mem_cons.mp hx with hb | hb
    · subst hb
      rw [List.find?_cons_of_pos _ hpx]
      rfl
    · by_cases hpb : p b = true
      · rw [List.find?_cons_of_pos _ hpb]
        rfl
      · rw [List.find?_cons_of_neg _ hpb]
        exact ih ⟨x, hb, hpx⟩

/-- `find?` only returns members satisfying the predicate. -/
theorem findQ_mem_sat {α : Type} {p : α → Bool} :
    ∀ {l : List α} {a : α}, l.find? p = some a → a ∈ l ∧ p a = true := by
  intro l
  induction l with
  | nil => intro a h; simp at h
  | cons b rest ih =>
    intro a h
    by_cases hpb : p b
    · rw [List.find?_cons_of_pos _ hpb, Option.some.injEq] at h
      exact ⟨h ▸ List.mem_cons_self b rest, h ▸ hpb⟩
    · rw [List.find?_cons_of_neg _ (by simpa using hpb)] at h
      obtain ⟨hm, hp⟩ := ih h
      exact ⟨List.mem_cons_of_mem b hm, hp⟩

/- ## gateScan machinery -/

/-- Each overlap-selection step either keeps the accumulator or proposes a
gate from the list. -/
theorem overlapStep_cases (target : List String) (best : Option (GateParam × ℕ))
    (g : GateParam) {r : GateParam × ℕ} (h : overlapStep target best g = some r) :
    best = some r ∨ r.1 = g := by
  unfold overlapStep at h
  by_cases hov : overlapCount g.module_tokens target = 0
  · rw [if_pos hov] at h
    exact Or.inl h
  · rw [if_neg hov] at h
    cases best with
    | none =>
      simp only [Option.some.injEq] at h
      exact Or.inr (by rw [← h])
    | some p =>
      obtain ⟨g1, ov1⟩ := p
      dsimp only at h
      by_cases hgt : overlapCount g.module_tokens target > ov1
      · rw [if_pos hgt] at h
        simp only [Option.some.injEq] at h
        exact Or.inr (by rw [← h])
      · rw [if_neg hgt] at h
        exact Or.inl h

/-- The overlap fold only produces gates of the list. -/
theorem foldl_overlapStep_mem (target : List String) :
    ∀ (gates : List GateParam) (acc : Option (GateParam × ℕ)) (r : GateParam × ℕ),
      gates.foldl (overlapStep target) acc = some r → acc = some r ∨ r.1 ∈ gates := by
  intro gates
  induction gates with
  | nil => intro acc r h; exact Or.inl h
  | cons g rest ih =>
    intro acc r h
    rw [List.foldl_cons] at h
    rcases ih (overlapStep target acc g) r h with hstep | hmem
    · rcases overlapStep_cases target acc g hstep with hacc | hg
      · exact Or.inl hacc
      · exact Or.inr (hg ▸ List.mem_cons_self g rest)
    · exact Or.inr (List.mem_cons_of_mem g hmem)

/-- The best-overlap winner is one of the plugin's gates. -/
theorem bestOverlapGate_mem {gates : List GateParam} {target : List String} {g : GateParam}
    (h : bestOverlapGate gates target = some g) : g ∈ gates := by
  unfold bestOverlapGate at h
  obtain ⟨p, hp, hfst⟩ := Option.map_eq_some'.mp h
  rcases foldl_overlapStep_mem target gates none p hp with habs | hmem
  · simp at habs
  · exact hfst ▸ hmem

/-- The chosen gate comes from the plugin's gate list. -/
theorem chooseGate_mem {snapshot : ReaperSnapshot} {plugin_index param_index : ℤ}
    {param_name : String} {g : GateParam}
    (h : chooseGate snapshot plugin_index param_index param_name = some g) :
    ∃ gates, pluginGates snapshot plugin_index = some gates ∧ g ∈ gates := by
  unfold chooseGate at h
  rcases hpg : pluginGates snapshot plugin_index with _ | gates
  · rw [hpg] at h
    simp at h
  · rw [hpg] at h
    dsimp only at h
    refine ⟨gates, rfl, ?_⟩
    by_cases hself : (gates.any fun gg => decide (gg.param_index = param_index)) = true
    · rw [if_pos hself] at h
      simp at h
    · rw [if_neg hself] at h
      rcases hbo : (if (module_tokens param_name).isEmpty = true then none
          else bestOverlapGate gates (module_tokens param_name)) with _ | g'
      · rw [hbo] at h
        by_cases hlen : gates.length = 1
        · rw [if_pos hlen] at h
          cases gates with
          | nil => simp at h
          | cons a rest =>
            simp only [List.head?_cons, Option.some.injEq] at h
            exact h ▸ List.mem_cons_self a rest
        · rw [if_neg hlen] at h
          exact (findQ_mem_sat h).1
      · rw [hbo] at h
        simp only [Option.some.injEq] at h
        subst h
        by_cases hemp : (module_tokens param_name).isEmpty = true
        · rw [if_pos hemp] at hbo
          simp at hbo
        · rw [if_neg hemp] at hbo
          exact bestOverlapGate_mem hbo

/-- Members of a plugin's gate list carry their recognized gate kind. -/
theorem gatesOf_kind {plugin : ReaperPlugin} {g : GateParam} (h : g ∈ gatesOf plugin) :
    gate_kind g.param_name = some g.kind := by
  unfold gatesOf at h
  obtain ⟨p, _, hp⟩ := List.mem_filterMap.mp h
  rcases hk : gate_kind p.name with _ | k
  · rw [hk] at hp
    simp at hp
  · rw [hk] at hp
    simp only [Option.map_some', Option.some.injEq] at hp
    rw [← hp]
    exact hk

/-- Gate lists handed out by `pluginGates` belong to a snapshot plugin. -/
theorem pluginGates_from_plugin {snapshot : ReaperSnapshot} {pi : ℤ}
    {gates : List GateParam} (h : pluginGates snapshot pi = some gates) :
    ∃ p ∈ snapshot.plugins, gates = gatesOf p := by
  unfold pluginGates at h
  obtain ⟨p, hp, hg⟩ := Option.map_eq_some'.mp h
  exact ⟨p, List.mem_of_mem_filter (mem_of_getLastQ hp), hg.symm⟩

/-- `gateScan` step: actions other than `SetParameter` are skipped. -/
theorem gateScan_cons_nonset (snapshot : ReaperSnapshot) (a : ParameterAction)
    (rest : List ParameterAction) (ins : List (ℤ × ℤ)) (h : setDedupKey a = none) :
    gateScan snapshot (a :: rest) ins = gateScan snapshot rest ins := by
  cases a with
  | setParameter _ _ _ _ _ _ => simp [setDedupKey] at h
  | enablePlugin _ _ _ _ => rfl
  | loadPlugin _ _ _ _ => rfl

/-- `gateScan` step: a `SetParameter` with no chosen gate is skipped. -/
theorem gateScan_cons_set_none (snapshot : ReaperSnapshot) (tr pi qi : ℤ)
    (pname : String) (v : FVal) (r : String) (rest : List ParameterAction)
    (ins : List (ℤ × ℤ)) (hcg : chooseGate snapshot pi qi pname = none) :
    gateScan snapshot (.setParameter tr pi qi pname v r :: rest) ins =
      gateScan snapshot rest ins := by
  simp only [gateScan, hcg]

/-- `gateScan` step: a `SetParameter` whose gate pair was already handled
is skipped. -/
theorem gateScan_cons_set_mem (snapshot : ReaperSnapshot) (tr pi qi : ℤ)
    (pname : String) (v : FVal) (r : String) (rest : List ParameterAction)
    (ins : List (ℤ × ℤ)) (g : GateParam)
    (hcg : chooseGate snapshot pi qi pname = some g)
    (hins : (pi, g.param_index) ∈ ins) :
    gateScan snapshot (.setParameter tr pi qi pname v r :: rest) ins =
      gateScan snapshot rest ins := by
  simp only [gateScan, hcg]
  rw [if_pos hins]

/-- `gateScan` step: a `SetParameter` whose chosen gate is active is
skipped. -/
theorem gateScan_cons_set_active (snapshot : ReaperSnapshot) (tr pi qi : ℤ)
    (pname : String) (v : FVal) (r : String) (rest : List ParameterAction)
    (ins : List (ℤ × ℤ)) (g : GateParam)
    (hcg : chooseGate snapshot pi qi pname = some g)
    (hins : ¬ (pi, g.param_index) ∈ ins)
    (hinact : ¬ gate_is_inactive g = true) :
    gateScan snapshot (.setParameter tr pi qi pname v r :: rest) ins =
      gateScan snapshot rest ins := by
  simp only [gateScan, hcg]
  rw [if_neg hins, if_neg hinact]

/-- `gateScan` step: a `SetParameter` whose chosen gate is inactive and
unhandled emits the opening toggle and its warning. -/
theorem gateScan_cons_set_emit (snapshot : ReaperSnapshot) (tr pi qi : ℤ)
    (pname : String) (v : FVal) (r : String) (rest : List ParameterAction)
    (ins : List (ℤ × ℤ)) (g : GateParam)
    (hcg : chooseGate snapshot pi qi pname = some g)
    (hins : ¬ (pi, g.param_index) ∈ ins)
    (hinact : gate_is_inactive g = true) :
    gateScan snapshot (.setParameter tr pi qi pname v r :: rest) ins =
      (.setParameter tr pi g.param_index g.param_name (gate_enable_value g)
          (gateOpenReason pname) ::
            (gateScan snapshot rest ((pi, g.param_index) :: ins)).1,
        gateOpenWarning g.param_name pname ::
          (gateScan snapshot rest ((pi, g.param_index) :: ins)).2) := by
  simp only [gateScan, hcg]
  rw [if_neg hins, if_pos hinact]

/-- Every extra action produced by the gate scan is an opening toggle for
the gate chosen (and found inactive) for some `SetParameter` of the input
whose pair was not yet handled. -/
theorem gateScan_shape (snapshot : ReaperSnapshot) :
    ∀ (l : List ParameterAction) (ins : List (ℤ × ℤ)) (e : ParameterAction),
      e ∈ (gateScan snapshot l ins).1 →
      ∃ tr pi qi pname v r g,
        (ParameterAction.setParameter tr pi qi pname v r) ∈ l ∧
        chooseGate snapshot pi qi pname = some g ∧
        gate_is_inactive g = true ∧
        ¬ (pi, g.param_index) ∈ ins ∧
        e = .setParameter tr pi g.param_index g.param_name (gate_enable_value g)
          (gateOpenReason pname) := by
  intro l
  induction l with
  | nil =>
    intro ins e he
    simp [gateScan] at he
  | cons a rest ih =>
    intro ins e he
    have lift :
        (∃ tr pi qi pname v r g,
          (ParameterAction.setParameter tr pi qi pname v r) ∈ rest ∧
          chooseGate snapshot pi qi pname = some g ∧
          gate_is_inactive g = true ∧
          ¬ (pi, g.param_index) ∈ ins ∧
          e = .setParameter tr pi g.param_index g.param_name (gate_enable_value g)
            (gateOpenReason pname)) →
        ∃ tr pi qi pname v r g,
          (ParameterAction.setParameter tr pi qi pname v r) ∈ a :: rest ∧
          chooseGate snapshot pi qi pname = some g ∧
          gate_is_inactive g = true ∧
          ¬ (pi, g.param_index) ∈ ins ∧
          e = .setParameter tr pi g.param_index g.param_name (gate_enable_value g)
            (gateOpenReason pname) := by
      rintro ⟨tr, pi, qi, pname, v, r, g, hm, h2, h3, h4, h5⟩
      exact ⟨tr, pi, qi, pname, v, r, g, List.mem_cons_of_mem _ hm, h2, h3, h4, h5⟩
    cases a with
    | setParameter tr pi qi pname v r =>
      rcases hcg : chooseGate snapshot pi qi pname with _ | g
      · rw [gateScan_cons_set_none snapshot tr pi qi pname v r rest ins hcg] at he
        exact lift (ih ins e he)
      · by_cases hins : (pi, g.param_index) ∈ ins
        · rw [gateScan_cons_set_mem snapshot tr pi qi pname v r rest ins g hcg hins] at he
          exact lift (ih ins e he)
        · by_cases hinact : gate_is_inactive g = true
          · rw [gateScan_cons_set_emit snapshot tr pi qi pname v r rest ins g hcg hins
              hinact] at he
            rcases List.mem_cons.mp he with hhead | htail
            · exact ⟨tr, pi, qi, pname, v, r, g, List.mem_cons_self _ _, hcg, hinact, hins,
                hhead⟩
            · obtain ⟨tr', pi', qi', pname', v', r', g', hm, h2, h3, h4, h5⟩ :=
                ih ((pi, g.param_index) :: ins) e htail
              exact ⟨tr', pi', qi', pname', v', r', g', List.mem_cons_of_mem _ hm, h2, h3,
                fun hc => h4 (List.mem_cons_of_mem _ hc), h5⟩
          · rw [gateScan_cons_set_active snapshot tr pi qi pname v r rest ins g hcg hins
              hinact] at he
            exact lift (ih ins e he)
    | enablePlugin tr' pi' pn' rs' =>
      rw [gateScan_cons_nonset snapshot (.enablePlugin tr' pi' pn' rs') rest ins rfl] at he
      exact lift (ih ins e he)
    | loadPlugin tr' pn' pos' rs' =>
      rw [gateScan_cons_nonset snapshot (.loadPlugin tr' pn' pos' rs') rest ins rfl] at he
      exact lift (ih ins e he)

/-- Every extra action of the gate scan splits the extra list at a point
after which no action shares its dedup key (pairs already handled are
never emitted again). -/
theorem gateScan_last (snapshot : ReaperSnapshot) :
    ∀ (l : List ParameterAction) (ins : List (ℤ × ℤ)) (e : ParameterAction),
      e ∈ (gateScan snapshot l ins).1 →
      ∃ E1 E2, (gateScan snapshot l ins).1 = E1 ++ e :: E2 ∧
        ∀ b ∈ E2, setDedupKey b ≠ setDedupKey e := by
  intro l
  induction l with
  | nil =>
    intro ins e he
    simp [gateScan] at he
  | cons a rest ih =>
    intro ins e he
    cases a with
    | setParameter tr pi qi pname v r =>
      rcases hcg : chooseGate snapshot pi qi pname with _ | g
      · rw [gateScan_cons_set_none snapshot tr pi qi pname v r rest ins hcg] at he ⊢
        exact ih ins e he
      · by_cases hins : (pi, g.param_index) ∈ ins
        · rw [gateScan_cons_set_mem snapshot tr pi qi pname v r rest ins g hcg hins] at he ⊢
          exact ih ins e he
        · by_cases hinact : gate_is_inactive g = true
          · rw [gateScan_cons_set_emit snapshot tr pi qi pname v r rest ins g hcg hins
              hinact] at he ⊢
            rcases List.mem_cons.mp he with hhead | htail
            · refine ⟨[], (gateScan snapshot rest ((pi, g.param_index) :: ins)).1, by
                rw [List.nil_append, hhead], ?_⟩
              intro b hb hkey
              obtain ⟨trb, pib, qib, pnameb, vb, rb, gb, _, _, _, h4b, h5b⟩ :=
                gateScan_shape snapshot rest ((pi, g.param_index) :: ins) b hb
              rw [h5b, hhead] at hkey
              simp only [setDedupKey, Option.some.injEq, Prod.mk.injEq] at hkey
              exact h4b (by
                rw [hkey.2.1, hkey.2.2]
                exact List.mem_cons_self _ _)
            · obtain ⟨E1, E2, heq, hprop⟩ := ih ((pi, g.param_index) :: ins) e htail
              exact ⟨ParameterAction.setParameter tr pi g.param_index g.param_name
                  (gate_enable_value g) (gateOpenReason pname) :: E1, E2,
                by rw [heq, List.cons_append], hprop⟩
          · rw [gateScan_cons_set_active snapshot tr pi qi pname v r rest ins g hcg hins
              hinact] at he ⊢
            exact ih ins e he
    | enablePlugin tr' pi' pn' rs' =>
      rw [gateScan_cons_nonset snapshot (.enablePlugin tr' pi' pn' rs') rest ins rfl] at he ⊢
      exact ih ins e he
    | loadPlugin tr' pn' pos' rs' =>
      rw [gateScan_cons_nonset snapshot (.loadPlugin tr' pn' pos' rs') rest ins rfl] at he ⊢
      exact ih ins e he

/-- If an input `SetParameter` chooses an inactive gate whose pair is not
yet handled, the gate scan's output contains an opening toggle for that
gate (possibly emitted for an earlier `SetParameter` of the same section;
distinct gate entries are told apart by the parameter-index `Nodup`
hypothesis). -/
theorem gateScan_opener (snapshot : ReaperSnapshot)
    (hnd : ∀ pi gs, pluginGates snapshot pi = some gs →
      (gs.map GateParam.param_index).Nodup) :
    ∀ (l : List ParameterAction) (ins : List (ℤ × ℤ)) (tr pi qi : ℤ) (pname : String)
      (v : FVal) (r : String) (g : GateParam),
      (ParameterAction.setParameter tr pi qi pname v r) ∈ l →
      chooseGate snapshot pi qi pname = some g →
      gate_is_inactive g = true →
      ¬ (pi, g.param_index) ∈ ins →
      ∃ tr' pn',
        (ParameterAction.setParameter tr' pi g.param_index g.param_name
          (gate_enable_value g) (gateOpenReason pn')) ∈ (gateScan snapshot l ins).1 := by
  intro l
  induction l with
  | nil =>
    intro ins tr pi qi pname v r g hmem _ _ _
    simp at hmem
  | cons a rest ih =>
    intro ins tr pi qi pname v r g hmem hcg hinact hins
    cases a with
    | setParameter trA piA qiA pnameA vA rA =>
      rcases hcgA : chooseGate snapshot piA qiA pnameA with _ | gA
      · rw [gateScan_cons_set_none snapshot trA piA qiA pnameA vA rA rest ins hcgA]
        rcases List.mem_cons.mp hmem with heq | hrest
        · simp only [ParameterAction.setParameter.injEq] at heq
          obtain ⟨_, h2, h3, h4, _, _⟩ := heq
          rw [← h2, ← h3, ← h4] at hcgA
          rw [hcg] at hcgA
          simp at hcgA
        · exact ih ins tr pi qi pname v r g hrest hcg hinact hins
      · by_cases hinsA : (piA, gA.param_index) ∈ ins
        · rw [gateScan_cons_set_mem snapshot trA piA qiA pnameA vA rA rest ins gA hcgA hinsA]
          rcases List.mem_cons.mp hmem with heq | hrest
          · simp only [ParameterAction.setParameter.injEq] at heq
            obtain ⟨h1, h2, h3, h4, _, _⟩ := heq
            subst h1; subst h2; subst h3; subst h4
            rw [hcg] at hcgA
            injection hcgA with hgg
            subst hgg
            exact absurd hinsA hins
          · exact ih ins tr pi qi pname v r g hrest hcg hinact hins
        · by_cases hinactA : gate_is_inactive gA = true
          · rw [gateScan_cons_set_emit snapshot trA piA qiA pnameA vA rA rest ins gA hcgA
              hinsA hinactA]
            rcases List.mem_cons.mp hmem with heq | hrest
            · simp only [ParameterAction.setParameter.injEq] at heq
              obtain ⟨h1, h2, h3, h4, _, _⟩ := heq
              subst h1; subst h2; subst h3; subst h4
              rw [hcg] at hcgA
              injection hcgA with hgg
              subst hgg
              exact ⟨tr, pname, List.mem_cons_self _ _⟩
            · by_cases hsame : ((pi, g.param_index) : ℤ × ℤ) = (piA, gA.param_index)
              · simp only [Prod.mk.injEq] at hsame
                obtain ⟨hpi, hgi⟩ := hsame
                subst hpi
                have hgeq : g = gA := by
                  obtain ⟨gs, hgs, hgm⟩ := chooseGate_mem hcg
                  obtain ⟨gsA, hgsA, hgAm⟩ := chooseGate_mem hcgA
                  rw [hgs] at hgsA
                  injection hgsA with hgseq
                  rw [← hgseq] at hgAm
                  exact List.inj_on_of_nodup_map (hnd pi gs hgs) hgm hgAm hgi
                subst hgeq
                exact ⟨trA, pnameA, List.mem_cons_self _ _⟩
              · have hins' : ¬ (pi, g.param_index) ∈ (piA, gA.param_index) :: ins := by
                  intro hc
                  rcases List.mem_cons.mp hc with hc | hc
                  · exact hsame hc
                  · exact hins hc
                obtain ⟨tr', pn', hmem'⟩ :=
                  ih ((piA, gA.param_index) :: ins) tr pi qi pname v r g hrest hcg hinact hins'
                exact ⟨tr', pn', List.mem_cons_of_mem _ hmem'⟩
          · rw [gateScan_cons_set_active snapshot trA piA qiA pnameA vA rA rest ins gA hcgA
              hinsA hinactA]
            rcases List.mem_cons.mp hmem with heq | hrest
            · simp only [ParameterAction.setParameter.injEq] at heq
              obtain ⟨h1, h2, h3, h4, _, _⟩ := heq
              subst h1; subst h2; subst h3; subst h4
              rw [hcg] at hcgA
              injection hcgA with hgg
              subst hgg
              exact absurd hinact hinactA
            · exact ih ins tr pi qi pname v r g hrest hcg hinact hins
    | enablePlugin trA piA pnA rsA =>
      rw [gateScan_cons_nonset snapshot (.enablePlugin trA piA pnA rsA) rest ins rfl]
      rcases List.mem_cons.mp hmem with heq | hrest
      · exact absurd heq (by simp)
      · exact ih ins tr pi qi pname v r g hrest hcg hinact hins
    | loadPlugin trA pnA posA rsA =>
      rw [gateScan_cons_nonset snapshot (.loadPlugin trA pnA posA rsA) rest ins rfl]
      rcases List.mem_cons.mp hmem with heq | hrest
      · exact absurd heq (by simp)
      · exact ih ins tr pi qi pname v r g hrest hcg hinact hins

/-- The action component of `ensure_prerequisites`, spelled out. -/
theorem ensure_prerequisites_fst (snapshot : ReaperSnapshot)
    (actions : List ParameterAction) :
    (ensure_prerequisites snapshot actions).1 =
      (actions ++ (enablePairs snapshot actions).map Prod.fst) ++
        (gateScan snapshot (actions ++ (enablePairs snapshot actions).map Prod.fst) []).1 :=
  rfl

/-- Synthesized enable pairs are `EnablePlugin` actions. -/
theorem enablePairs_shape {snapshot : ReaperSnapshot} {actions : List ParameterAction}
    {a : ParameterAction} (h : a ∈ (enablePairs snapshot actions).map Prod.fst) :
    ∃ tr pi pn rs, a = ParameterAction.enablePlugin tr pi pn rs := by
  obtain ⟨pair, hpair, hfst⟩ := List.mem_map.mp h
  obtain ⟨pj, _, hsome⟩ := List.mem_filterMap.mp hpair
  obtain ⟨p, _, hpeq⟩ := Option.map_eq_some'.mp hsome
  rw [← hpeq] at hfst
  exact ⟨_, _, _, _, hfst.symm⟩

/-- Any `SetParameter` surviving `ensure_prerequisites` whose target plugin
exists in the snapshot and is disabled there is accompanied by an
`EnablePlugin` for the same plugin index somewhere in the ensured list. -/
theorem ensure_covers (snapshot : ReaperSnapshot) (actions : List ParameterAction)
    {t pi qi : ℤ} {n : String} {v : FVal} {r : String}
    (hmem : (ParameterAction.setParameter t pi qi n v r) ∈
      (ensure_prerequisites snapshot actions).1)
    (hex : ∃ p ∈ snapshot.plugins, p.index = pi)
    (hdis : ∀ p ∈ snapshot.plugins, p.index = pi → p.enabled = false) :
    ∃ tr pn rs,
      (ParameterAction.enablePlugin tr pi pn rs) ∈
        (ensure_prerequisites snapshot actions).1 := by
  have key : ∀ (t' qi' : ℤ) (n' : String) (v' : FVal) (r' : String),
      (ParameterAction.setParameter t' pi qi' n' v' r') ∈
        actions ++ (enablePairs snapshot actions).map Prod.fst →
      ∃ tr pn rs,
        (ParameterAction.enablePlugin tr pi pn rs) ∈
          actions ++ (enablePairs snapshot actions).map Prod.fst := by
    intro t' qi' n' v' r' hset
    rcases List.mem_append.mp hset with hsa | hse
    · by_cases hhas : hasEnableFor actions pi = true
      · obtain ⟨tr, pn, rs, h⟩ := exists_enable_of_hasEnableFor hhas
        exact ⟨tr, pn, rs, List.mem_append_left _ h⟩
      · have hlook := pluginEnabledLookup_false hex hdis
        have hne := mem_needsEnableList hsa hlook hhas
        obtain ⟨p, hp, hpi⟩ := hex
        have hfind : (snapshot.plugins.find? fun p => decide (p.index = pi)).isSome = true :=
          findQ_isSome_of_exists ⟨p, hp, by simp [hpi]⟩
        obtain ⟨q, hq⟩ := Option.isSome_iff_exists.mp hfind
        refine ⟨snapshot.track_index, q.name,
          "Auto-enable plugin because parameters will be set",
          List.mem_append_right _ ?_⟩
        rw [List.mem_map]
        refine ⟨(ParameterAction.enablePlugin snapshot.track_index pi q.name
            "Auto-enable plugin because parameters will be set",
          autoEnableWarning q.name), ?_, rfl⟩
        unfold enablePairs
        rw [List.mem_filterMap]
        exact ⟨pi, hne, by rw [hq]; rfl⟩
    · obtain ⟨_, _, _, _, habs⟩ := enablePairs_shape hse
      simp at habs
  rw [ensure_prerequisites_fst] at hmem
  rcases List.mem_append.mp hmem with h1 | h2
  · obtain ⟨tr, pn, rs, h⟩ := key t qi n v r h1
    exact ⟨tr, pn, rs, by rw [ensure_prerequisites_fst]; exact List.mem_append_left _ h⟩
  · obtain ⟨trS, piS, qiS, pnameS, vS, rS, gS, hsrc, _, _, _, heS⟩ :=
      gateScan_shape snapshot _ [] _ h2
    simp only [ParameterAction.setParameter.injEq] at heS
    obtain ⟨_, hpiS, _, _, _, _⟩ := heS
    rw [← hpiS] at hsrc
    obtain ⟨tr, pn, rs, h⟩ := key trS qiS pnameS vS rS hsrc
    exact ⟨tr, pn, rs, by rw [ensure_prerequisites_fst]; exact List.mem_append_left _ h⟩

/-- C4: in the emitted order, every `SetParameter` targeting a plugin that
exists in the snapshot and is disabled there is preceded (strictly) by an
`EnablePlugin` for the same plugin index: `ensure_prerequisites` inserts
the enable when none exists, and the final sort places `EnablePlugin`
(type rank 1) before `SetParameter` (type rank 2). -/
theorem claim_C4_enable_before_set (O : FloatOracle) (config : ChainMapperConfig)
    (tone : ToneParameters) (snapshot : ReaperSnapshot)
    (i : ℕ) (hi : i < (chainMap O config tone snapshot).actions.length)
    (t pi qi : ℤ) (n : String) (v : FVal) (r : String)
    (hget : (chainMap O config tone snapshot).actions.get ⟨i, hi⟩ =
      .setParameter t pi qi n v r)
    (hex : ∃ p ∈ snapshot.plugins, p.index = pi)
    (hdis : ∀ p ∈ snapshot.plugins, p.index = pi → p.enabled = false) :
    ∃ j, ∃ hj : j < (chainMap O config tone snapshot).actions.length, j < i ∧
      ∃ tr pn rs, (chainMap O config tone snapshot).actions.get ⟨j, hj⟩ =
        .enablePlugin tr pi pn rs := by
  have hx : (ParameterAction.setParameter t pi qi n v r) ∈
      (chainMap O config tone snapshot).actions := by
    rw [← hget]
    exact List.get_mem _ _ hi
  rw [chainMap_actions] at hx
  obtain ⟨a0, ha0mem, ha0⟩ := List.mem_map.mp (mem_plan hx)
  obtain ⟨v0, ha0eq, _⟩ := hygieneAction_shape ha0
  rw [ha0eq] at ha0mem
  obtain ⟨tr, pn, rs, hen⟩ := ensure_covers snapshot _ ha0mem hex hdis
  have henf : (ParameterAction.enablePlugin tr pi pn rs) ∈
      (chainMap O config tone snapshot).actions := by
    rw [chainMap_actions]
    exact mem_plan_of_nonset rfl (List.mem_map.mpr ⟨_, hen, rfl⟩)
  have hpw : ((chainMap O config tone snapshot).actions).Pairwise actTupleLE := by
    rw [chainMap_actions]
    exact sortActions_pairwise _
  have hlt : actTupleLT (.enablePlugin tr pi pn rs)
      ((chainMap O config tone snapshot).actions.get ⟨i, hi⟩) := by
    rw [hget]
    exact Or.inl (by norm_num [typeRank])
  obtain ⟨j, hj, hji, hgetj⟩ := pairwise_exists_earlier hpw hi henf hlt
  exact ⟨j, hj, hji, tr, pn, rs, hgetj⟩

/-- Witness for C4: a disabled amp plugin with a `Gain` parameter and a
one-knob tone; the auto-inserted `EnablePlugin` lands strictly before the
`SetParameter` in the emitted list. -/
theorem claim_C4_enable_before_set_witness :
    ∃ j, ∃ hj : j < (chainMap trivOracle cfgNoLoad toneGain1 disSnap).actions.length,
      j < 1 ∧ ∃ tr pn rs,
        (chainMap trivOracle cfgNoLoad toneGain1 disSnap).actions.get ⟨j, hj⟩ =
          .enablePlugin tr 0 pn rs :=
  claim_C4_enable_before_set trivOracle cfgNoLoad toneGain1 disSnap 1 (by decide)
    0 0 0 "Gain" (.fin 1) "amp :: gain -> Gain" (by decide) (by decide) (by decide)

/- ## Gate/rank correspondence and C5 -/

/-- The gate indices of a plugin are drawn from its parameter indices. -/
theorem gatesOf_indices_sublist (p : ReaperPlugin) :
    List.Sublist ((gatesOf p).map GateParam.param_index)
      (p.parameters.map ReaperParameter.index) := by
  unfold gatesOf
  induction p.parameters with
  | nil => simp
  | cons pp rest ih =>
    rcases hk : gate_kind pp.name with _ | k
    · simp only [List.filterMap_cons, hk, Option.map_none', List.map_cons]
      exact ih.cons _
    · simp only [List.filterMap_cons, hk, Option.map_some', List.map_cons]
      exact ih.cons₂ _

/-- Distinct parameter indices in each snapshot plugin yield distinct gate
parameter indices in every `plugin_gates` entry. -/
theorem pluginGates_index_nodup {snapshot : ReaperSnapshot}
    (h : ∀ p ∈ snapshot.plugins, (p.parameters.map ReaperParameter.index).Nodup) :
    ∀ pi gs, pluginGates snapshot pi = some gs →
      (gs.map GateParam.param_index).Nodup := by
  intro pi gs hg
  obtain ⟨p, hp, hgs⟩ := pluginGates_from_plugin hg
  rw [hgs]
  exact List.Nodup.sublist (gatesOf_indices_sublist p) (h p hp)

/-- The planner's `set_rank` gate-word test coincides with `gate_kind`
recognition (the two sites test the same name patterns). -/
theorem setRankName_zero_iff (n : String) :
    setRankName n = 0 ↔ (gate_kind n).isSome = true := by
  unfold setRankName gate_kind
  cases hb1 : strContains (normalize_token n) "bypass" <;>
    cases hb2 : strContains (normalize_token n) "enable" <;>
      cases hb3 : strContains (normalize_token n) "enabled" <;>
        cases hb4 : strContains (normalize_token n) "active" <;>
          cases hb5 : strEndsWith (normalize_token n) "on" <;>
            simp [hb1, hb2, hb3, hb4, hb5]

/-- Gate-named parameters sort with rank 0. -/
theorem setRankName_of_gate {n : String} {k : GateKind} (h : gate_kind n = some k) :
    setRankName n = 0 :=
  (setRankName_zero_iff n).mpr (by rw [h]; rfl)

/-- Non-gate-named parameters sort with rank 1. -/
theorem setRankName_of_nongate {n : String} (h : gate_kind n = none) :
    setRankName n = 1 := by
  have h01 : setRankName n = 0 ∨ setRankName n = 1 := by
    dsimp only [setRankName]
    split
    · exact Or.inl rfl
    · exact Or.inr rfl
  rcases h01 with h0 | h1
  · have := (setRankName_zero_iff n).mp h0
    rw [h] at this
    simp at this
  · exact h1

/-- C5 (after the name-based reading of "non-gate parameter"): every
emitted `SetParameter` whose name matches no gate pattern, whose chosen
section gate (token-overlap rule with sole-gate and empty-token fallbacks,
as computed by `chooseGate`) is inactive, is preceded strictly by a
`SetParameter` on that gate carrying its enable value (0 for a bypass
gate, 1 for an enable gate).  The snapshot is assumed to have distinct
parameter indices within each plugin, the data-model invariant of §3. -/
theorem claim_C5_gate_opener (O : FloatOracle) (config : ChainMapperConfig)
    (tone : ToneParameters) (snapshot : ReaperSnapshot)
    (hnd : ∀ p ∈ snapshot.plugins, (p.parameters.map ReaperParameter.index).Nodup)
    (i : ℕ) (hi : i < (chainMap O config tone snapshot).actions.length)
    (t pi qi : ℤ) (pname : String) (v : FVal) (r : String)
    (hget : (chainMap O config tone snapshot).actions.get ⟨i, hi⟩ =
      .setParameter t pi qi pname v r)
    (hng : gate_kind pname = none)
    (g : GateParam)
    (hcg : chooseGate snapshot pi qi pname = some g)
    (hinact : gate_is_inactive g = true) :
    ∃ j, ∃ hj : j < (chainMap O config tone snapshot).actions.length, j < i ∧
      ∃ tr rs, (chainMap O config tone snapshot).actions.get ⟨j, hj⟩ =
        .setParameter tr pi g.param_index g.param_name (gate_enable_value g) rs := by
  have hgkind : gate_kind g.param_name = some g.kind := by
    obtain ⟨gs, hgs, hgm⟩ := chooseGate_mem hcg
    obtain ⟨p, hp, hgseq⟩ := pluginGates_from_plugin hgs
    rw [hgseq] at hgm
    exact gatesOf_kind hgm
  have hx : (ParameterAction.setParameter t pi qi pname v r) ∈
      (chainMap O config tone snapshot).actions := by
    rw [← hget]
    exact List.get_mem _ _ hi
  rw [chainMap_actions] at hx
  obtain ⟨a0, ha0mem, ha0⟩ := List.mem_map.mp (mem_plan hx)
  obtain ⟨v0, ha0eq, _⟩ := hygieneAction_shape ha0
  rw [ha0eq] at ha0mem
  rw [ensure_prerequisites_fst] at ha0mem
  rcases List.mem_append.mp ha0mem with hA1 | hextra
  · -- the source SetParameter is among the pre-scan actions
    obtain ⟨tr', pn', hopen⟩ :=
      gateScan_opener snapshot (pluginGates_index_nodup hnd) _ [] t pi qi pname v0 r g
        hA1 hcg hinact (by simp)
    -- the opener is the last action with its dedup key
    obtain ⟨E1, E2, hsplit, hlast⟩ := gateScan_last snapshot _ [] _ hopen
    have hopenf : (ParameterAction.setParameter tr' pi g.param_index g.param_name
        (gate_enable_value g) (gateOpenReason pn')) ∈
        (chainMap O config tone snapshot).actions := by
      rw [chainMap_actions]
      refine (sortActions_perm _).mem_iff.mpr ?_
      have hmapsplit :
          ((ensure_prerequisites snapshot (mapCandidates O config tone snapshot).1).1).map
              (hygieneAction O) =
            (((mapCandidates O config tone snapshot).1 ++
                (enablePairs snapshot (mapCandidates O config tone snapshot).1).map
                  Prod.fst) ++ E1).map (hygieneAction O) ++
              (ParameterAction.setParameter tr' pi g.param_index g.param_name
                (gate_enable_value g) (gateOpenReason pn') :: E2.map (hygieneAction O)) := by
        rw [ensure_prerequisites_fst, hsplit]
        rw [← List.append_assoc, List.map_append, List.map_cons]
        rw [hygieneAction_gateOpen]
      rw [hmapsplit]
      refine mem_dedupSets_append_last
        (a := ParameterAction.setParameter tr' pi g.param_index g.param_name
          (gate_enable_value g) (gateOpenReason pn'))
        (k := (tr', pi, g.param_index)) rfl ?_ _
      intro b hb
      obtain ⟨b0, hb0, hb0eq⟩ := List.mem_map.mp hb
      rw [← hb0eq, setDedupKey_hygieneAction]
      exact hlast b0 hb0
    have hpw : ((chainMap O config tone snapshot).actions).Pairwise actTupleLE := by
      rw [chainMap_actions]
      exact sortActions_pairwise _
    have hlt : actTupleLT
        (.setParameter tr' pi g.param_index g.param_name (gate_enable_value g)
          (gateOpenReason pn'))
        ((chainMap O config tone snapshot).actions.get ⟨i, hi⟩) := by
      rw [hget]
      refine Or.inr ⟨rfl, Or.inr ⟨rfl, ?_⟩⟩
      show setRankName g.param_name < setRankName pname
      rw [setRankName_of_gate hgkind, setRankName_of_nongate hng]
      norm_num
    obtain ⟨j, hj, hji, hgetj⟩ := pairwise_exists_earlier hpw hi hopenf hlt
    exact ⟨j, hj, hji, tr', gateOpenReason pn', hgetj⟩
  · -- impossible: extras are gate-named, the target is not
    obtain ⟨trS, piS, qiS, pnameS, vS, rS, gS, _, hcgS, _, _, heS⟩ :=
      gateScan_shape snapshot _ [] _ hextra
    simp only [ParameterAction.setParameter.injEq] at heS
    obtain ⟨_, _, _, hnameS, _, _⟩ := heS
    have hkindS : gate_kind gS.param_name = some gS.kind := by
      obtain ⟨gsS, hgsS, hgmS⟩ := chooseGate_mem hcgS
      obtain ⟨pS, hpS, hgseqS⟩ := pluginGates_from_plugin hgsS
      rw [hgseqS] at hgmS
      exact gatesOf_kind hgmS
    rw [← hnameS] at hkindS
    rw [hng] at hkindS
    simp at hkindS

/-- Witness for C5: an enabled amp plugin whose `EQ Gain` parameter sits
behind a currently engaged `EQ Bypass` gate; the inserted gate opener
(value 0) lands strictly before the `EQ Gain` write. -/
theorem claim_C5_gate_opener_witness :
    ∃ j, ∃ hj : j < (chainMap trivOracle cfgNoLoad toneGain1 gateSnap).actions.length,
      j < 1 ∧ ∃ tr rs,
        (chainMap trivOracle cfgNoLoad toneGain1 gateSnap).actions.get ⟨j, hj⟩ =
          .setParameter tr 0
            (GateParam.mk 10 "EQ Bypass" (.fin 1) .Bypass ["eq"]).param_index
            (GateParam.mk 10 "EQ Bypass" (.fin 1) .Bypass ["eq"]).param_name
            (gate_enable_value (GateParam.mk 10 "EQ Bypass" (.fin 1) .Bypass ["eq"])) rs :=
  claim_C5_gate_opener trivOracle cfgNoLoad toneGain1 gateSnap (by decide) 1 (by decide)
    0 0 11 "EQ Gain" (.fin 1) "amp :: gain -> EQ Gain" (by decide) (by decide)
    (GateParam.mk 10 "EQ Bypass" (.fin 1) .Bypass ["eq"]) (by decide) (by decide)

/- ## Sanitizer machinery -/

/-- A member of `listInsert l k v` is an old member or the new entry. -/
theorem mem_listInsert {l : List (String × FVal)} {k : String} {v : FVal}
    {kv : String × FVal} (h : kv ∈ listInsert l k v) : kv ∈ l ∨ kv = (k, v) := by
  unfold listInsert at h
  by_cases ha : (l.any fun kv => kv.1 = k) = true
  · rw [if_pos ha, List.mem_map] at h
    obtain ⟨kv', hkv', heq⟩ := h
    by_cases hk : kv'.1 = k
    · rw [if_pos hk] at heq; right; exact heq.symm
    · rw [if_neg hk] at heq; left; exact heq ▸ hkv'
  · rw [if_neg ha, List.mem_append] at h
    rcases h with h | h
    · exact Or.inl h
    · right; simpa using h

/-- `listInsert` grows the list by at most one entry. -/
theorem listInsert_length_le (l : List (String × FVal)) (k : String) (v : FVal) :
    (listInsert l k v).length ≤ l.length + 1 := by
  unfold listInsert
  by_cases ha : (l.any fun kv => kv.1 = k) = true
  · rw [if_pos ha, List.length_map]; omega
  · rw [if_neg ha, List.length_append]; simp

/-- When the key is absent, `listInsert` appends. -/
theorem listInsert_of_not_mem {l : List (String × FVal)} {k : String} (v : FVal)
    (h : k ∉ l.map Prod.fst) : listInsert l k v = l ++ [(k, v)] := by
  unfold listInsert
  rw [if_neg]
  intro hany
  rw [List.any_eq_true] at hany
  obtain ⟨kv, hkv, hk⟩ := hany
  exact h (List.mem_map.mpr ⟨kv, hkv, by simpa using hk⟩)

/-- `listInsert` preserves key distinctness. -/
theorem listInsert_keys_nodup {l : List (String × FVal)} {k : String} {v : FVal}
    (h : (l.map Prod.fst).Nodup) : ((listInsert l k v).map Prod.fst).Nodup := by
  unfold listInsert
  by_cases ha : (l.any fun kv => kv.1 = k) = true
  · rw [if_pos ha, List.map_map]
    have hkeys : l.map (Prod.fst ∘ fun kv => if kv.1 = k then (k, v) else kv) =
        l.map Prod.fst := by
      apply List.map_congr_left
      intro kv _
      by_cases hk : kv.1 = k <;> simp [hk]
    rw [hkeys]; exact h
  · rw [if_neg ha, List.map_append]
    rw [List.nodup_append]
    refine ⟨h, by simp, ?_⟩
    intro a ha1 hb
    simp only [List.map_cons, List.map_nil, List.mem_singleton] at hb
    subst hb
    obtain ⟨kv, hkv, hfst⟩ := List.mem_map.mp ha1
    exact ha (List.any_eq_true.mpr ⟨kv, hkv, by simp [hfst]⟩)

/-- `listInsert` preserves any entry predicate that holds of the new entry. -/
theorem listInsert_forall {P : String × FVal → Prop} {l : List (String × FVal)}
    {k : String} {v : FVal} (hl : ∀ kv ∈ l, P kv) (hkv : P (k, v)) :
    ∀ kv ∈ listInsert l k v, P kv := by
  intro kv hm
  rcases mem_listInsert hm with h | h
  · exact hl kv h
  · rw [h]; exact hkv

/-- A successful table lookup returns one of the table's canonical names. -/
theorem tableLookup_mem {table : List (List String × String)} {kn ck : String}
    (h : tableLookup table kn = some ck) : ck ∈ table.map Prod.snd := by
  unfold tableLookup at h
  rw [Option.map_eq_some'] at h
  obtain ⟨arm, harm, heq⟩ := h
  exact heq ▸ List.mem_map_of_mem Prod.snd (List.mem_of_find?_eq_some harm)

/-- Each of the nine lookup tables maps its own canonical outputs to
themselves (the canonical names are their own normalized synonyms). -/
theorem tables_fixed :
    (∀ ck ∈ ampTable.map Prod.snd, tableLookup ampTable (san_normalize_token ck) = some ck) ∧
    (∀ ck ∈ gateTable.map Prod.snd, tableLookup gateTable (san_normalize_token ck) = some ck) ∧
    (∀ ck ∈ compTable.map Prod.snd, tableLookup compTable (san_normalize_token ck) = some ck) ∧
    (∀ ck ∈ odTable.map Prod.snd, tableLookup odTable (san_normalize_token ck) = some ck) ∧
    (∀ ck ∈ distTable.map Prod.snd, tableLookup distTable (san_normalize_token ck) = some ck) ∧
    (∀ ck ∈ chorusTable.map Prod.snd,
      tableLookup chorusTable (san_normalize_token ck) = some ck) ∧
    (∀ ck ∈ reverbTable.map Prod.snd,
      tableLookup reverbTable (san_normalize_token ck) = some ck) ∧
    (∀ ck ∈ delayTable.map Prod.snd,
      tableLookup delayTable (san_normalize_token ck) = some ck) ∧
    (∀ ck ∈ genericTable.map Prod.snd,
      tableLookup genericTable (san_normalize_token ck) = some ck) := by
  decide

/-- `canonical_param_key` on a fixed group is one fixed table lookup whose
canonical outputs are fixed points of that same table. -/
theorem canonical_param_key_table (group : String) :
    ∃ T, (∀ k, canonical_param_key group k = tableLookup T (san_normalize_token k)) ∧
      ∀ ck ∈ T.map Prod.snd, tableLookup T (san_normalize_token ck) = some ck := by
  by_cases hamp : group = "amp"
  · exact ⟨ampTable, fun k => by unfold canonical_param_key; rw [if_pos hamp],
      tables_fixed.1⟩
  · rcases hrest : effectGroupRest group with _ | et
    · by_cases hrev : group = "reverb"
      · refine ⟨reverbTable, fun k => ?_, tables_fixed.2.2.2.2.2.2.1⟩
        unfold canonical_param_key
        rw [if_neg hamp, hrest]
        dsimp only
        rw [if_pos hrev]
      · by_cases hdel : group = "delay"
        · refine ⟨delayTable, fun k => ?_, tables_fixed.2.2.2.2.2.2.2.1⟩
          unfold canonical_param_key
          rw [if_neg hamp, hrest]
          dsimp only
          rw [if_neg hrev, if_pos hdel]
        · refine ⟨genericTable, fun k => ?_, tables_fixed.2.2.2.2.2.2.2.2⟩
          unfold canonical_param_key
          rw [if_neg hamp, hrest]
          dsimp only
          rw [if_neg hrev, if_neg hdel]
    · by_cases h1 : san_normalize_token et = "noise_gate" ∨
          san_normalize_token et = "noisegate" ∨ san_normalize_token et = "gate"
      · refine ⟨gateTable, fun k => ?_, tables_fixed.2.1⟩
        unfold canonical_param_key
        rw [if_neg hamp, hrest]
        dsimp only
        rw [if_pos h1]
      · by_cases h2 : san_normalize_token et = "compressor" ∨ san_normalize_token et = "comp"
        · refine ⟨compTable, fun k => ?_, tables_fixed.2.2.1⟩
          unfold canonical_param_key
          rw [if_neg hamp, hrest]
          dsimp only
          rw [if_neg h1, if_pos h2]
        · by_cases h3 : san_normalize_token et = "overdrive" ∨ san_normalize_token et = "od"
          · refine ⟨odTable, fun k => ?_, tables_fixed.2.2.2.1⟩
            unfold canonical_param_key
            rw [if_neg hamp, hrest]
            dsimp only
            rw [if_neg h1, if_neg h2, if_pos h3]
          · by_cases h4 : san_normalize_token et = "distortion" ∨
                san_normalize_token et = "dist" ∨ san_normalize_token et = "fuzz"
            · refine ⟨distTable, fun k => ?_, tables_fixed.2.2.2.2.1⟩
              unfold canonical_param_key
              rw [if_neg hamp, hrest]
              dsimp only
              rw [if_neg h1, if_neg h2, if_neg h3, if_pos h4]
            · by_cases h5 : san_normalize_token et = "chorus"
              · refine ⟨chorusTable, fun k => ?_, tables_fixed.2.2.2.2.2.1⟩
                unfold canonical_param_key
                rw [if_neg hamp, hrest]
                dsimp only
                rw [if_neg h1, if_neg h2, if_neg h3, if_neg h4, if_pos h5]
              · refine ⟨genericTable, fun k => ?_, tables_fixed.2.2.2.2.2.2.2.2⟩
                unfold canonical_param_key
                rw [if_neg hamp, hrest]
                dsimp only
                rw [if_neg h1, if_neg h2, if_neg h3, if_neg h4, if_neg h5]

/-- `canonical_param_key` is idempotent on its successful outputs. -/
theorem canonical_param_key_idem {group k ck : String}
    (h : canonical_param_key group k = some ck) :
    canonical_param_key group ck = some ck := by
  obtain ⟨T, hT, hfix⟩ := canonical_param_key_table group
  rw [hT] at h
  rw [hT]
  exact hfix ck (tableLookup_mem h)

/-- `canonical_effect_type` keeps the type unchanged or returns one of the
six canonical names. -/
theorem canonical_effect_type_cases (t : String) :
    canonical_effect_type t = t ∨
      canonical_effect_type t ∈
        ["noise_gate", "overdrive", "distortion", "compressor", "chorus", "phaser"] := by
  unfold canonical_effect_type
  dsimp only
  split_ifs <;> first | (left; rfl) | (right; decide)

/-- `canonical_effect_type` is idempotent. -/
theorem canonical_effect_type_idem (t : String) :
    canonical_effect_type (canonical_effect_type t) = canonical_effect_type t := by
  rcases canonical_effect_type_cases t with h | h
  · rw [h]; exact h
  · have hfix : ∀ s ∈ ["noise_gate", "overdrive", "distortion", "compressor",
        "chorus", "phaser"], canonical_effect_type s = s := by decide
    exact hfix _ h

/-- One sanitation step keeps the output list within the cap. -/
theorem sanitizeUnitStep_length (O : FloatOracle) (group : String) (cap : ℕ)
    (acc : List (String × FVal) × List String) (kv : String × FVal)
    (h : acc.1.length ≤ cap) : (sanitizeUnitStep O group cap acc kv).1.length ≤ cap := by
  rcases kv with ⟨k, v⟩
  rcases v with q | _ | _ | _
  · unfold sanitizeUnitStep
    dsimp only
    rcases hck : (match canonical_param_key group k with
      | some ck => some ck
      | none => if is_strict_group group then none else some k : Option String) with _ | ck
    · dsimp only; exact h
    · dsimp only
      by_cases hlen : acc.1.length < cap
      · rw [if_pos hlen]
        have := listInsert_length_le acc.1 ck (.fin (min 1 (max 0 q)))
        omega
      · rw [if_neg hlen]; exact h
  · exact h
  · exact h
  · exact h

/-- The unit-map fold never exceeds the key cap. -/
theorem foldl_unitStep_length (O : FloatOracle) (group : String) (cap : ℕ) :
    ∀ (l : List (String × FVal)) (acc : List (String × FVal) × List String),
      acc.1.length ≤ cap → (l.foldl (sanitizeUnitStep O group cap) acc).1.length ≤ cap
  | [], _, h => h
  | kv :: rest, acc, h =>
    foldl_unitStep_length O group cap rest _ (sanitizeUnitStep_length O group cap acc kv h)

/-- Insert-branch helper: writing a canonical fixed-point key with a clamped
value preserves distinct keys and entry goodness. -/
theorem insertBranch_good (group : String) (cap : ℕ) (out : List (String × FVal))
    (ck : String) (q : ℚ)
    (hn : (out.map Prod.fst).Nodup) (hg : ∀ p ∈ out, GoodEntry group p)
    (hk : canonical_param_key group ck = some ck ∨
      (canonical_param_key group ck = none ∧ is_strict_group group = false)) :
    (((if out.length < cap then listInsert out ck (.fin (min 1 (max 0 q))) else out).map
        Prod.fst).Nodup) ∧
      ∀ p ∈ (if out.length < cap then listInsert out ck (.fin (min 1 (max 0 q))) else out),
        GoodEntry group p := by
  by_cases hlen : out.length < cap
  · simp only [if_pos hlen]
    refine ⟨listInsert_keys_nodup hn, listInsert_forall hg ?_⟩
    exact ⟨⟨min 1 (max 0 q), rfl, le_min (by norm_num) (le_max_left 0 q), min_le_left 1 _⟩, hk⟩
  · simp only [if_neg hlen]
    exact ⟨hn, hg⟩

/-- One sanitation step preserves distinct keys and entry goodness. -/
theorem sanitizeUnitStep_good (O : FloatOracle) (group : String) (cap : ℕ)
    (acc : List (String × FVal) × List String) (kv : String × FVal)
    (hn : (acc.1.map Prod.fst).Nodup) (hg : ∀ p ∈ acc.1, GoodEntry group p) :
    ((sanitizeUnitStep O group cap acc kv).1.map Prod.fst).Nodup ∧
      ∀ p ∈ (sanitizeUnitStep O group cap acc kv).1, GoodEntry group p := by
  rcases kv with ⟨k, v⟩
  rcases v with q | _ | _ | _
  · unfold sanitizeUnitStep
    dsimp only
    rcases hcpk : canonical_param_key group k with _ | ck0
    · dsimp only
      by_cases hs : is_strict_group group = true
      · rw [if_pos hs]
        dsimp only
        exact ⟨hn, hg⟩
      · rw [if_neg hs]
        dsimp only
        have hs' : is_strict_group group = false := by
          revert hs; cases is_strict_group group <;> simp
        exact insertBranch_good group cap acc.1 k q hn hg (Or.inr ⟨hcpk, hs'⟩)
    · dsimp only
      exact insertBranch_good group cap acc.1 ck0 q hn hg
        (Or.inl (canonical_param_key_idem hcpk))
  · exact ⟨hn, hg⟩
  · exact ⟨hn, hg⟩
  · exact ⟨hn, hg⟩

/-- The unit-map fold keeps keys distinct and all entries good. -/
theorem foldl_unitStep_good (O : FloatOracle) (group : String) (cap : ℕ) :
    ∀ (l : List (String × FVal)) (acc : List (String × FVal) × List String),
      (acc.1.map Prod.fst).Nodup → (∀ p ∈ acc.1, GoodEntry group p) →
      ((l.foldl (sanitizeUnitStep O group cap) acc).1.map Prod.fst).Nodup ∧
        ∀ p ∈ (l.foldl (sanitizeUnitStep O group cap) acc).1, GoodEntry group p
  | [], _, hn, hg => ⟨hn, hg⟩
  | kv :: rest, acc, hn, hg =>
    foldl_unitStep_good O group cap rest _
      (sanitizeUnitStep_good O group cap acc kv hn hg).1
      (sanitizeUnitStep_good O group cap acc kv hn hg).2

/-- The output map of `sanitize_unit_map` is its fold's first component. -/
theorem sanitize_unit_map_fst (O : FloatOracle) (map : List (String × FVal))
    (group : String) (cap : ℕ) :
    (sanitize_unit_map O map group cap).1 =
      (map.foldl (sanitizeUnitStep O group cap) ([], [])).1 := rfl

/-- On a list of good entries with fresh distinct keys and room under the
cap, the unit-map fold appends the list unchanged. -/
theorem foldl_unitStep_id (O : FloatOracle) (group : String) (cap : ℕ) :
    ∀ (l : List (String × FVal)) (acc : List (String × FVal) × List String),
      (∀ p ∈ l, GoodEntry group p) → (l.map Prod.fst).Nodup →
      (∀ k ∈ l.map Prod.fst, k ∉ acc.1.map Prod.fst) →
      acc.1.length + l.length ≤ cap →
      (l.foldl (sanitizeUnitStep O group cap) acc).1 = acc.1 ++ l
  | [], acc, _, _, _, _ => by simp
  | kv :: rest, acc, hg, hnd, hdisj, hlen => by
    obtain ⟨⟨q, hv, h0, h1⟩, hkey⟩ := hg kv (List.mem_cons_self _ _)
    rcases kv with ⟨k, v⟩
    dsimp only at hv hkey
    subst hv
    have hlt : acc.1.length < cap := by
      simp only [List.length_cons] at hlen
      omega
    have hknotacc : k ∉ acc.1.map Prod.fst := hdisj k (by simp)
    have hstep1 : (sanitizeUnitStep O group cap acc (k, FVal.fin q)).1 =
        acc.1 ++ [(k, FVal.fin q)] := by
      unfold sanitizeUnitStep
      dsimp only
      rcases hkey with hsome | ⟨hnone, hns⟩
      · rw [hsome]
        dsimp only
        rw [max_eq_right h0, min_eq_right h1, if_pos hlt,
          listInsert_of_not_mem _ hknotacc]
      · rw [hnone]
        dsimp only
        rw [if_neg (by simp [hns])]
        dsimp only
        rw [max_eq_right h0, min_eq_right h1, if_pos hlt,
          listInsert_of_not_mem _ hknotacc]
    simp only [List.map_cons] at hnd hdisj
    have hknotrest : k ∉ rest.map Prod.fst := (List.nodup_cons.mp hnd).1
    have hIH := foldl_unitStep_id O group cap rest
      (sanitizeUnitStep O group cap acc (k, FVal.fin q))
      (fun p hp => hg p (List.mem_cons_of_mem _ hp))
      (List.nodup_cons.mp hnd).2
      (by
        intro k' hk'
        rw [hstep1, List.map_append]
        simp only [List.map_cons, List.map_nil, List.mem_append, List.mem_singleton]
        rintro (hmem | hk)
        · exact hdisj k' (List.mem_cons_of_mem _ hk') hmem
        · subst hk
          exact hknotrest hk')
      (by
        rw [hstep1, List.length_append]
        simp only [List.length_cons, List.length_nil] at hlen ⊢
        omega)
    rw [List.foldl_cons, hIH, hstep1]
    simp

/-- `survivorsList` on a finite head whose key survives. -/
theorem survivorsList_cons_some {group k : String} {q : ℚ} {ck : String}
    (hck : (match canonical_param_key group k with
      | some ck => some ck
      | none => if is_strict_group group then none else some k : Option String) = some ck)
    (rest : List (String × FVal)) :
    survivorsList group ((k, FVal.fin q) :: rest) =
      (ck, FVal.fin (min 1 (max 0 q))) :: survivorsList group rest := by
  unfold survivorsList
  rw [List.filterMap_cons]
  dsimp only
  rw [hck]
  rfl

/-- `survivorsList` on a finite head whose key is dropped. -/
theorem survivorsList_cons_none {group k : String} {q : ℚ}
    (hck : (match canonical_param_key group k with
      | some ck => some ck
      | none => if is_strict_group group then none else some k : Option String) = none)
    (rest : List (String × FVal)) :
    survivorsList group ((k, FVal.fin q) :: rest) = survivorsList group rest := by
  unfold survivorsList
  rw [List.filterMap_cons]
  dsimp only
  rw [hck]
  rfl

/-- Under distinct surviving keys, the capped unit-map fold emits exactly
the first surviving entries, up to the cap. -/
theorem foldl_unitStep_take (O : FloatOracle) (group : String) (cap : ℕ) :
    ∀ (l : List (String × FVal)) (acc : List (String × FVal) × List String),
      ((survivorsList group l).map Prod.fst).Nodup →
      (∀ k ∈ (survivorsList group l).map Prod.fst, k ∉ acc.1.map Prod.fst) →
      (l.foldl (sanitizeUnitStep O group cap) acc).1 =
        acc.1 ++ (survivorsList group l).take (cap - acc.1.length)
  | [], acc, _, _ => by simp [survivorsList]
  | (k, FVal.nan) :: rest, acc, hnd, hdisj =>
    foldl_unitStep_take O group cap rest _ hnd hdisj
  | (k, FVal.inf) :: rest, acc, hnd, hdisj =>
    foldl_unitStep_take O group cap rest _ hnd hdisj
  | (k, FVal.ninf) :: rest, acc, hnd, hdisj =>
    foldl_unitStep_take O group cap rest _ hnd hdisj
  | (k, FVal.fin q) :: rest, acc, hnd, hdisj => by
    rcases hck : (match canonical_param_key group k with
      | some ck => some ck
      | none => if is_strict_group group then none else some k : Option String) with _ | ck
    · have hstep1 : (sanitizeUnitStep O group cap acc (k, FVal.fin q)).1 = acc.1 := by
        unfold sanitizeUnitStep
        dsimp only
        rw [hck]
      rw [survivorsList_cons_none hck rest] at hnd hdisj ⊢
      rw [List.foldl_cons,
        foldl_unitStep_take O group cap rest _ hnd (by rw [hstep1]; exact hdisj), hstep1]
    · rw [survivorsList_cons_some hck rest] at hnd hdisj ⊢
      simp only [List.map_cons] at hnd hdisj
      have hcknotacc : ck ∉ acc.1.map Prod.fst := hdisj ck (by simp)
      have hcknotrest : ck ∉ (survivorsList group rest).map Prod.fst :=
        (List.nodup_cons.mp hnd).1
      have hnd' := (List.nodup_cons.mp hnd).2
      by_cases hlen : acc.1.length < cap
      · have hstep1 : (sanitizeUnitStep O group cap acc (k, FVal.fin q)).1 =
            acc.1 ++ [(ck, FVal.fin (min 1 (max 0 q)))] := by
          unfold sanitizeUnitStep
          dsimp only
          rw [hck]
          dsimp only
          rw [if_pos hlen, listInsert_of_not_mem _ hcknotacc]
        have hdisj' : ∀ k' ∈ (survivorsList group rest).map Prod.fst,
            k' ∉ (sanitizeUnitStep O group cap acc (k, FVal.fin q)).1.map Prod.fst := by
          intro k' hk'
          rw [hstep1, List.map_append]
          simp only [List.map_cons, List.map_nil, List.mem_append, List.mem_singleton]
          rintro (hmem | hkk)
          · exact hdisj k' (List.mem_cons_of_mem _ hk') hmem
          · subst hkk
            exact hcknotrest hk'
        rw [List.foldl_cons, foldl_unitStep_take O group cap rest _ hnd' hdisj', hstep1]
        have harith : cap - acc.1.length = (cap - (acc.1.length + 1)) + 1 := by omega
        rw [List.length_append]
        simp only [List.length_cons, List.length_nil]
        rw [harith, List.take_succ_cons, List.append_assoc]
        rfl
      · have hstep1 : (sanitizeUnitStep O group cap acc (k, FVal.fin q)).1 = acc.1 := by
          unfold sanitizeUnitStep
          dsimp only
          rw [hck]
          dsimp only
          rw [if_neg hlen]
        have h0 : cap - acc.1.length = 0 := by omega
        have hdisj' : ∀ k' ∈ (survivorsList group rest).map Prod.fst,
            k' ∉ (sanitizeUnitStep O group cap acc (k, FVal.fin q)).1.map Prod.fst := by
          rw [hstep1]
          intro k' hk'
          exact hdisj k' (List.mem_cons_of_mem _ hk')
        rw [List.foldl_cons, foldl_unitStep_take O group cap rest _ hnd' hdisj', hstep1, h0]
        simp

/-- C8 (amended): for every unit map, `sanitize_unit_map` keeps at most 32
keys; and when the surviving entries (finite values, canonicalized keys)
have pairwise distinct keys, the kept entries are exactly the first 32
surviving ones in the map's ITERATION order — the unspecified `HashMap`
iteration order — rather than the first-inserted ones. -/
theorem claim_C8_amended :
    (∀ (O : FloatOracle) (group : String) (map : List (String × FVal)),
      (sanitize_unit_map O map group 32).1.length ≤ 32) ∧
    (∀ (O : FloatOracle) (group : String) (map : List (String × FVal)),
      ((survivorsList group map).map Prod.fst).Nodup →
      (sanitize_unit_map O map group 32).1 = (survivorsList group map).take 32) := by
  constructor
  · intro O group map
    rw [sanitize_unit_map_fst]
    exact foldl_unitStep_length O group 32 map ([], []) (by simp)
  · intro O group map hnd
    rw [sanitize_unit_map_fst,
      foldl_unitStep_take O group 32 map ([], []) hnd (by simp)]
    simp

set_option maxRecDepth 8000 in
/-- Witness for the amended C8: 33 distinct unknown amp keys in a fixed
iteration order; the sanitized map is the first 32 surviving entries. -/
theorem claim_C8_amended_witness :
    (sanitize_unit_map trivOracle keys33.reverse "amp" 32).1 =
      (survivorsList "amp" keys33.reverse).take 32 :=
  claim_C8_amended.2 trivOracle "amp" keys33.reverse (by decide)

/-- `sanitize_unit_map` run on its own output is the identity on the map,
for any pair of formatting oracles. -/
theorem sanitize_unit_map_idem (O O' : FloatOracle) (group : String) (cap : ℕ)
    (map : List (String × FVal)) :
    (sanitize_unit_map O' (sanitize_unit_map O map group cap).1 group cap).1 =
      (sanitize_unit_map O map group cap).1 := by
  have hgood := foldl_unitStep_good O group cap map ([], []) (by simp) (by simp)
  have hlen := foldl_unitStep_length O group cap map ([], []) (by simp)
  rw [sanitize_unit_map_fst O map group cap, sanitize_unit_map_fst O',
    foldl_unitStep_id O' group cap _ ([], []) hgood.2 hgood.1 (by simp)
      (by simpa using hlen)]
  simp

/-- A `collect`-style fold only contains entries of its inputs. -/
theorem foldl_listInsert_mem :
    ∀ (l acc : List (String × FVal)) {kv : String × FVal},
      kv ∈ l.foldl (fun a p => listInsert a p.1 p.2) acc → kv ∈ acc ∨ kv ∈ l
  | [], _, _, h => Or.inl h
  | p :: rest, acc, kv, h => by
    rw [List.foldl_cons] at h
    rcases foldl_listInsert_mem rest _ h with h' | h'
    · rcases mem_listInsert h' with h'' | h''
      · exact Or.inl h''
      · right
        rw [h'']
        exact List.mem_cons_self _ _
    · exact Or.inr (List.mem_cons_of_mem _ h')

/-- A `collect`-style fold adds at most one entry per input element. -/
theorem foldl_listInsert_length :
    ∀ (l acc : List (String × FVal)),
      (l.foldl (fun a p => listInsert a p.1 p.2) acc).length ≤ acc.length + l.length
  | [], acc => by simp
  | p :: rest, acc => by
    rw [List.foldl_cons]
    have h1 := foldl_listInsert_length rest (listInsert acc p.1 p.2)
    have h2 := listInsert_length_le acc p.1 p.2
    simp only [List.length_cons]
    omega

/-- Every entry of `sanitize_eq_map`'s output carries a finite value in
`[-12, 12]` dB. -/
theorem sanitize_eq_map_range (O : FloatOracle) (map : List (String × FVal)) (maxp : ℕ) :
    ∀ kv ∈ (sanitize_eq_map O map maxp).1,
      ∃ q : ℚ, kv.2 = FVal.fin q ∧ -12 ≤ q ∧ q ≤ 12 := by
  have hcl : ∀ kv' ∈ (map.filter fun kv => kv.2.isFinite).map
      (fun kv => (kv.1, kv.2.clampQ (-12) 12)),
      ∃ q : ℚ, kv'.2 = FVal.fin q ∧ -12 ≤ q ∧ q ≤ 12 := by
    intro kv' hkv'
    rw [List.mem_map] at hkv'
    obtain ⟨kv0, hkv0, heq⟩ := hkv'
    have hfin : kv0.2.isFinite = true := (List.mem_filter.mp hkv0).2
    rcases hv : kv0.2 with q0 | _ | _ | _
    · refine ⟨min 12 (max (-12) q0), ?_, le_min (by norm_num) (le_max_left _ _),
        min_le_left _ _⟩
      rw [← heq]
      dsimp only
      rw [hv]
      rfl
    · rw [hv] at hfin; simp [FVal.isFinite] at hfin
    · rw [hv] at hfin; simp [FVal.isFinite] at hfin
    · rw [hv] at hfin; simp [FVal.isFinite] at hfin
  intro kv hm
  unfold sanitize_eq_map at hm
  dsimp only at hm
  split at hm
  · exact hcl kv hm
  · rcases foldl_listInsert_mem _ _ hm with h | h
    · simp at h
    · exact hcl kv ((List.perm_insertionSort absDescLE _).subset (List.mem_of_mem_take h))

/-- `sanitize_eq_map` keeps at most `max_points` entries. -/
theorem sanitize_eq_map_length (O : FloatOracle) (map : List (String × FVal)) (maxp : ℕ) :
    (sanitize_eq_map O map maxp).1.length ≤ maxp := by
  unfold sanitize_eq_map
  dsimp only
  split
  · next h => exact h
  · next h =>
      refine le_trans (foldl_listInsert_length _ []) ?_
      simp

/-- `sanitize_eq_map` run on its own output is the identity on the map. -/
theorem sanitize_eq_map_idem (O O' : FloatOracle) (map : List (String × FVal)) (maxp : ℕ) :
    (sanitize_eq_map O' (sanitize_eq_map O map maxp).1 maxp).1 =
      (sanitize_eq_map O map maxp).1 := by
  have hrange := sanitize_eq_map_range O map maxp
  have hlen := sanitize_eq_map_length O map maxp
  set out := (sanitize_eq_map O map maxp).1 with hout
  have hfilter : (out.filter fun kv => kv.2.isFinite) = out := by
    rw [List.filter_eq_self]
    intro kv hkv
    obtain ⟨q, hv, _, _⟩ := hrange kv hkv
    rw [hv]
    rfl
  have hpoint : ∀ kv ∈ out, (kv.1, kv.2.clampQ (-12) 12) = (fun kv => kv) kv := by
    intro kv hkv
    obtain ⟨q, hv, hlo, hhi⟩ := hrange kv hkv
    rw [hv]
    dsimp only [FVal.clampQ]
    rw [max_eq_right hlo, min_eq_right hhi]
    exact Prod.ext rfl hv.symm
  have hmapid : (out.map fun kv => (kv.1, kv.2.clampQ (-12) 12)) = out := by
    rw [List.map_congr_left hpoint]
    exact List.map_id' out
  unfold sanitize_eq_map
  dsimp only
  rw [hfilter, hmapid, if_pos hlen]

/-- Mapping a function that fixes every member, then filtering by a
predicate every member satisfies, is the identity. -/
theorem map_filter_id {α : Type} {f : α → α} {p : α → Bool} {l : List α}
    (hf : ∀ a ∈ l, f a = (fun a => a) a) (hp : ∀ a ∈ l, p a = true) :
    (l.map f).filter p = l := by
  rw [List.map_congr_left hf, List.map_id']
  exact List.filter_eq_self.mpr hp

/-- Every effect kept by `sanitize_effects` has a canonical-fixed type, a
unit map that is its own sanitization, and nonempty parameters. -/
theorem sanitize_effects_mem (O O' : FloatOracle) (effects : List EffectParameters)
    (maxe maxp : ℕ) :
    ∀ e ∈ (sanitize_effects O effects maxe maxp).1,
      canonical_effect_type e.effect_type = e.effect_type ∧
      (sanitize_unit_map O' e.parameters ("effect:" ++ e.effect_type) maxp).1 =
        e.parameters ∧
      e.parameters.isEmpty = false := by
  intro e he
  unfold sanitize_effects at he
  dsimp only at he
  rw [List.mem_filter] at he
  obtain ⟨hmem, hne⟩ := he
  rw [List.map_map, List.mem_map] at hmem
  obtain ⟨eff, _, heq⟩ := hmem
  subst heq
  dsimp only [Function.comp]
  refine ⟨canonical_effect_type_idem _, ?_, by simpa using hne⟩
  exact sanitize_unit_map_idem O O'
    ("effect:" ++ canonical_effect_type eff.effect_type) maxp eff.parameters

/-- `sanitize_effects` keeps at most `max_effects` entries. -/
theorem sanitize_effects_length (O : FloatOracle) (effects : List EffectParameters)
    (maxe maxp : ℕ) : (sanitize_effects O effects maxe maxp).1.length ≤ maxe := by
  unfold sanitize_effects
  dsimp only
  refine le_trans (List.length_filter_le _ _) ?_
  rw [List.length_map, List.length_map]
  exact le_trans (Nat.le_of_eq (List.length_take _ _)) (min_le_left _ _)

/-- `sanitize_effects` run on its own output is the identity on the list. -/
theorem sanitize_effects_idem (O O' : FloatOracle) (effects : List EffectParameters)
    (maxe maxp : ℕ) :
    (sanitize_effects O' (sanitize_effects O effects maxe maxp).1 maxe maxp).1 =
      (sanitize_effects O effects maxe maxp).1 := by
  have hmem := sanitize_effects_mem O O' effects maxe maxp
  have hlen := sanitize_effects_length O effects maxe maxp
  set out := (sanitize_effects O effects maxe maxp).1 with hout
  unfold sanitize_effects
  dsimp only
  rw [List.take_of_length_le hlen, List.map_map]
  apply map_filter_id
  · intro e he
    obtain ⟨h1, h2, _⟩ := hmem e he
    dsimp only [Function.comp]
    rw [h1, h2]
  · intro e he
    simp [(hmem e he).2.2]

/-- C9: sanitization is idempotent — re-sanitizing the parameters produced
by `sanitize` returns the same amp, eq, reverb and delay maps and the same
effects list with the same canonical types and parameters, under any pair
of float-formatting oracles. -/
theorem claim_C9_sanitize_idempotent (O O' : FloatOracle) (x : ToneParameters) :
    (sanitize O' (sanitize O x).parameters).parameters = (sanitize O x).parameters := by
  unfold sanitize
  dsimp only
  simp only [ToneParameters.mk.injEq]
  exact ⟨sanitize_unit_map_idem O O' "amp" 32 x.amp,
    sanitize_eq_map_idem O O' x.eq 16,
    sanitize_effects_idem O O' x.effects 5 24,
    sanitize_unit_map_idem O O' "reverb" 32 x.reverb,
    sanitize_unit_map_idem O O' "delay" 32 x.delay⟩

/-- `str::find` locates the pattern right after a prefix free of the
pattern's first character. -/
theorem findSubIdx_append_of_head_notin :
    ∀ (D : List Char) (c : Char) (pat suf : List Char),
      (∀ d ∈ D, d ≠ c) → isPrefixCh (c :: pat) suf = true →
      findSubIdx (c :: pat) (D ++ suf) = some D.length
  | [], c, pat, suf, _, hpre => by
    rcases suf with _ | ⟨x, rest⟩
    · simp [isPrefixCh] at hpre
    · rw [List.nil_append]
      unfold findSubIdx
      rw [if_pos hpre]
      rfl
  | d :: D', c, pat, suf, hD, hpre => by
    have hcd : (c == d) = false :=
      beq_eq_false_iff_ne.mpr fun h => (hD d (by simp)) h.symm
    have hcond : isPrefixCh (c :: pat) (d :: (D' ++ suf)) = false := by
      simp [isPrefixCh, hcd]
    rw [List.cons_append]
    unfold findSubIdx
    rw [if_neg (by simp [hcond]),
      findSubIdx_append_of_head_notin D' c pat suf (fun x hx => hD x (by simp [hx])) hpre]
    rfl

/-- `str::find` fails when the pattern's first character never occurs. -/
theorem findSubIdx_none_of_head_notin :
    ∀ (s : List Char) (c : Char) (pat : List Char),
      (∀ d ∈ s, d ≠ c) → findSubIdx (c :: pat) s = none
  | [], _, _, _ => rfl
  | x :: rest, c, pat, hs => by
    have hcx : (c == x) = false :=
      beq_eq_false_iff_ne.mpr fun h => (hs x (by simp)) h.symm
    have hcond : isPrefixCh (c :: pat) (x :: rest) = false := by
      simp [isPrefixCh, hcx]
    unfold findSubIdx
    rw [if_neg (by simp [hcond]),
      findSubIdx_none_of_head_notin rest c pat (fun d hd => hs d (by simp [hd]))]
    rfl

/-- `str::find` success yields an in-range position bearing the pattern. -/
theorem findSubIdx_some_spec :
    ∀ (s pat : List Char) (p : ℕ), findSubIdx pat s = some p →
      p ≤ s.length ∧ isPrefixCh pat (s.drop p) = true
  | [], pat, p, h => by
    unfold findSubIdx at h
    by_cases hp : pat.isEmpty
    · rw [if_pos hp] at h
      injection h with h
      subst h
      refine ⟨by simp, ?_⟩
      rcases pat with _ | ⟨c, cs⟩
      · rfl
      · simp [List.isEmpty] at hp
    · rw [if_neg hp] at h
      exact absurd h (by simp)
  | x :: rest, pat, p, h => by
    unfold findSubIdx at h
    by_cases hpre : isPrefixCh pat (x :: rest) = true
    · rw [if_pos hpre] at h
      injection h with h
      subst h
      exact ⟨by simp, hpre⟩
    · rw [if_neg hpre] at h
      rw [Option.map_eq_some'] at h
      obtain ⟨q, hq, hpq⟩ := h
      obtain ⟨h1, h2⟩ := findSubIdx_some_spec rest pat q hq
      subst hpq
      refine ⟨?_, h2⟩
      simp only [List.length_cons]
      omega

/-- C7 (amended): after trimming, lowercasing and space-stripping, a label
ending in `"khz"` (resp. `"hz"`) whose prefix avoids the characters
`k`/`h`/`z` and parses as a decimal yields the value scaled by 1000
(resp. unscaled); a label containing NO occurrence of `"khz"` or `"hz"`
with a parsable prefix yields `none` (`"2khz"` maps to 2000 and `"abc"` to
`none`).  But the implementation keys on the FIRST occurrence of
`"khz"`/`"hz"`, so a label that does not end in them can still parse:
`"2khzx"` also maps to 2000. -/
theorem claim_C7_amended :
    (∀ (text : String) (D : List Char) (v : FVal),
      stripFreqLabel text = D ++ ['k', 'h', 'z'] →
      (∀ c ∈ D, c ≠ 'k' ∧ c ≠ 'h' ∧ c ≠ 'z') →
      parseRustF64 D = some v →
      parse_frequency_hz text = some (v.mulZ 1000)) ∧
    (∀ (text : String) (D : List Char) (v : FVal),
      stripFreqLabel text = D ++ ['h', 'z'] →
      (∀ c ∈ D, c ≠ 'k' ∧ c ≠ 'h' ∧ c ≠ 'z') →
      parseRustF64 D = some v →
      parse_frequency_hz text = some v) ∧
    (∀ (text : String),
      (∀ p, p ≤ (stripFreqLabel text).length →
        isPrefixCh ['k', 'h', 'z'] ((stripFreqLabel text).drop p) = true →
        parseRustF64 ((stripFreqLabel text).take p) = none) →
      (∀ p, p ≤ (stripFreqLabel text).length →
        isPrefixCh ['h', 'z'] ((stripFreqLabel text).drop p) = true →
        parseRustF64 ((stripFreqLabel text).take p) = none) →
      parse_frequency_hz text = none) ∧
    parse_frequency_hz "2khz" = some (FVal.fin 2000) ∧
    parse_frequency_hz "abc" = none ∧
    parse_frequency_hz "2khzx" = some (FVal.fin 2000) := by
  refine ⟨?_, ?_, ?_, by decide, by decide, by decide⟩
  · intro text D v hs hD hp
    unfold parse_frequency_hz
    dsimp only
    rw [hs, findSubIdx_append_of_head_notin D 'k' ['h', 'z'] ['k', 'h', 'z']
      (fun d hd => (hD d hd).1) (by decide)]
    dsimp only
    rw [List.take_left, hp]
    rfl
  · intro text D v hs hD hp
    unfold parse_frequency_hz
    dsimp only
    rw [hs, findSubIdx_none_of_head_notin (D ++ ['h', 'z']) 'k' ['h', 'z'] ?hnk]
    case hnk =>
      intro d hd
      rcases List.mem_append.mp hd with h | h
      · exact (hD d h).1
      · simp only [List.mem_cons, List.mem_singleton] at h
        rcases h with rfl | rfl | h
        · decide
        · decide
        · simp only [List.not_mem_nil] at h
    dsimp only
    rw [findSubIdx_append_of_head_notin D 'h' ['z'] ['h', 'z']
      (fun d hd => (hD d hd).2.1) (by decide)]
    dsimp only
    rw [List.take_left, hp]
  · intro text h1 h2
    unfold parse_frequency_hz
    dsimp only
    rcases hk : findSubIdx ['k', 'h', 'z'] (stripFreqLabel text) with _ | p
    · dsimp only
      rcases hh : findSubIdx ['h', 'z'] (stripFreqLabel text) with _ | p
      · rfl
      · dsimp only
        obtain ⟨hle, hpre⟩ := findSubIdx_some_spec _ _ _ hh
        rw [h2 p hle hpre]
    · dsimp only
      obtain ⟨hle, hpre⟩ := findSubIdx_some_spec _ _ _ hk
      rw [h1 p hle hpre]
      rfl

/-- Witness for the amended C7, exercising every hypothesis-bearing part:
`"1.5khz"` maps to 1500 Hz, `"440hz"` to 440 Hz, and `"xhz"` — whose sole
`"hz"` occurrence has the unparsable prefix `"x"` — to `none`. -/
theorem claim_C7_amended_witness :
    parse_frequency_hz "1.5khz" = some ((FVal.fin (mkRat 3 2)).mulZ 1000) ∧
    parse_frequency_hz "440hz" = some (FVal.fin 440) ∧
    parse_frequency_hz "xhz" = none :=
  ⟨claim_C7_amended.1 "1.5khz" ['1', '.', '5'] (FVal.fin (mkRat 3 2)) (by decide)
      (by decide) (by decide),
    claim_C7_amended.2.1 "440hz" ['4', '4', '0'] (FVal.fin 440) (by decide) (by decide)
      (by decide),
    claim_C7_amended.2.2.1 "xhz" (by decide) (by decide)⟩

/-- A fold whose step only ever appends preserves membership of the
accumulator. -/
theorem foldl_append_mono {β γ : Type} {g : List β → γ → List β}
    (hg : ∀ acc x, ∃ s, g acc x = acc ++ s) :
    ∀ (l : List γ) (acc : List β) {b : β}, b ∈ acc → b ∈ l.foldl g acc
  | [], _, _, hb => hb
  | x :: rest, acc, _, hb => by
    rw [List.foldl_cons]
    apply foldl_append_mono hg rest
    obtain ⟨s, hs⟩ := hg acc x
    rw [hs]
    exact List.mem_append_left _ hb

/-- C6 (amended): the EQ band mapping dispatches on the chosen plugin's
NAME containing `"reaeq"`, not on the band-parameter shape.  (a) A chosen
EQ plugin whose name lacks the token yields exactly one warning and skips
EQ — even if it exposes `Band N Freq`/`Band N Gain` parameters.  (b) For a
name-matching plugin, a parsable EQ point together with a band exposing
both a Freq and a Gain parameter yields `SetParameter` actions on those
band parameters.  (c) A name-matching plugin WITHOUT the band shape yields
exactly one warning and skips EQ. -/
theorem claim_C6_amended :
    (∀ (O : FloatOracle) (config : ChainMapperConfig) (track : ℤ)
        (snapshot : ReaperSnapshot) (eq : List (String × FVal)) (plugin : ReaperPlugin),
      eq.isEmpty = false →
      pick_best_plugin snapshot role_keywords_eq = some plugin →
      contains_token plugin.name "reaeq" = false →
      eqSection O config track snapshot eq =
        ((if ¬ plugin.enabled then
            [ParameterAction.enablePlugin track plugin.index plugin.name
              "Enable EQ plugin for tone mapping"]
          else []),
          ["EQ plugin '" ++ plugin.name ++
            "' is not supported by deterministic mapper yet; EQ skipped"], false)) ∧
    (∀ (O : FloatOracle) (track : ℤ) (plugin : ReaperPlugin) (eq : List (String × FVal))
        (maxp : ℕ) (p0 : FVal × FVal) (prest : List (FVal × FVal)) (b0 : ℤ) (bs : List ℤ)
        (fp gp : ReaperParameter),
      (List.insertionSort absDescLE (eq.filterMap fun kv =>
          (parse_frequency_hz kv.1).map fun hz => (hz, kv.2))).take maxp = p0 :: prest →
      plugin.parameters.any (fun p => (isBandFreq p).isSome) = true →
      plugin.parameters.any (fun p => (isBandGain p).isSome) = true →
      freqBands plugin = b0 :: bs →
      bandFreqLookup plugin b0 = some fp →
      bandGainLookup plugin b0 = some gp →
      ParameterAction.setParameter track plugin.index fp.index fp.name (O.hzNorm p0.1)
          ("eq :: set band " ++ toString b0 ++ " freq to " ++ O.fmt (.fixed 0) p0.1 ++
            " Hz") ∈ (map_eq_reaeq O track plugin eq maxp).1 ∧
        ParameterAction.setParameter track plugin.index gp.index gp.name
          (db_to_normalized p0.2 24)
          ("eq :: set band " ++ toString b0 ++ " gain to " ++
            O.fmt (.fixedSigned 1) p0.2 ++ " dB") ∈ (map_eq_reaeq O track plugin eq maxp).1) ∧
    (∀ (O : FloatOracle) (config : ChainMapperConfig) (track : ℤ)
        (snapshot : ReaperSnapshot) (eq : List (String × FVal)) (plugin : ReaperPlugin),
      eq.isEmpty = false →
      pick_best_plugin snapshot role_keywords_eq = some plugin →
      contains_token plugin.name "reaeq" = true →
      ((List.insertionSort absDescLE (eq.filterMap fun kv =>
          (parse_frequency_hz kv.1).map fun hz => (hz, kv.2))).take
        config.max_eq_points).isEmpty = false →
      (plugin.parameters.any (fun p => (isBandFreq p).isSome) = false ∨
        plugin.parameters.any (fun p => (isBandGain p).isSome) = false) →
      eqSection O config track snapshot eq =
        ((if ¬ plugin.enabled then
            [ParameterAction.enablePlugin track plugin.index plugin.name
              "Enable EQ plugin for tone mapping"]
          else []),
          ["EQ map: '" ++ plugin.name ++
            "' does not look like ReaEQ band params; skipped"], false)) := by
  refine ⟨?_, ?_, ?_⟩
  · intro O config track snapshot eq plugin heq hpick hc
    unfold eqSection
    rw [if_neg (by simp [heq]), hpick]
    dsimp only
    rw [if_neg (by simp [hc])]
  · intro O track plugin eq maxp p0 prest b0 bs fp gp hpts hfreq hgain hbands hfp hgp
    have hg : ∀ (acc : List ParameterAction) (pb : (FVal × FVal) × ℤ),
        ∃ s, (fun (acc : List ParameterAction) (pb : (FVal × FVal) × ℤ) =>
          match bandFreqLookup plugin pb.2, bandGainLookup plugin pb.2 with
          | some freqParam, some gainParam =>
            acc ++
              [.setParameter track plugin.index freqParam.index freqParam.name
                  (O.hzNorm pb.1.1)
                  ("eq :: set band " ++ toString pb.2 ++ " freq to " ++
                    O.fmt (.fixed 0) pb.1.1 ++ " Hz"),
                .setParameter track plugin.index gainParam.index gainParam.name
                  (db_to_normalized pb.1.2 24)
                  ("eq :: set band " ++ toString pb.2 ++ " gain to " ++
                    O.fmt (.fixedSigned 1) pb.1.2 ++ " dB")]
          | _, _ => acc) acc pb = acc ++ s := by
      intro acc pb
      dsimp only
      rcases bandFreqLookup plugin pb.2 with _ | fp'
      · exact ⟨[], by rw [List.append_nil]⟩
      · rcases bandGainLookup plugin pb.2 with _ | gp'
        · exact ⟨[], by rw [List.append_nil]⟩
        · exact ⟨_, rfl⟩
    constructor
    · unfold map_eq_reaeq
      dsimp only
      rw [hpts, if_neg (by simp), if_neg (by simp [hfreq, hgain]), hbands,
        List.zip_cons_cons, List.foldl_cons]
      apply foldl_append_mono hg
      dsimp only
      rw [hfp, hgp]
      simp
    · unfold map_eq_reaeq
      dsimp only
      rw [hpts, if_neg (by simp), if_neg (by simp [hfreq, hgain]), hbands,
        List.zip_cons_cons, List.foldl_cons]
      apply foldl_append_mono hg
      dsimp only
      rw [hfp, hgp]
      simp
  · intro O config track snapshot eq plugin heq hpick hc hpts hshape
    have hcond : ¬ plugin.parameters.any (fun p => (isBandFreq p).isSome) = true ∨
        ¬ plugin.parameters.any (fun p => (isBandGain p).isSome) = true := by
      rcases hshape with h | h
      · exact Or.inl (by simp [h])
      · exact Or.inr (by simp [h])
    have hmap : map_eq_reaeq O track plugin eq config.max_eq_points =
        ([], ["EQ map: '" ++ plugin.name ++
          "' does not look like ReaEQ band params; skipped"]) := by
      unfold map_eq_reaeq
      dsimp only
      rw [if_neg (by simp [hpts]), if_pos hcond]
    unfold eqSection
    rw [if_neg (by simp [heq]), hpick]
    dsimp only
    rw [if_pos hc, hmap]
    dsimp only
    rw [List.append_nil]

/-- Witness for the amended C6, exercising all three parts: the band-shaped
non-ReaEQ `"Graphic EQ"` is skipped with the unsupported warning; the
band-shaped `"ReaEQ (Cockos)"` receives both band-1 `SetParameter`s for the
800 Hz / −4 dB point; the band-less `"ReaEQ (Cockos)"` is skipped with the
band-shape warning. -/
theorem claim_C6_amended_witness :
    (eqSection trivOracle cfgNoLoad 0 geqSnap toneEq800.eq =
      ((if ¬ graphicEqPlugin.enabled then
          [ParameterAction.enablePlugin 0 graphicEqPlugin.index graphicEqPlugin.name
            "Enable EQ plugin for tone mapping"]
        else []),
        ["EQ plugin '" ++ graphicEqPlugin.name ++
          "' is not supported by deterministic mapper yet; EQ skipped"], false)) ∧
    (ParameterAction.setParameter 0 reaeqPlugin.index band1FreqParam.index
        band1FreqParam.name (trivOracle.hzNorm (FVal.fin 800))
        ("eq :: set band " ++ toString (1 : ℤ) ++ " freq to " ++
          trivOracle.fmt (.fixed 0) (FVal.fin 800) ++ " Hz")
        ∈ (map_eq_reaeq trivOracle 0 reaeqPlugin toneEq800.eq 4).1 ∧
      ParameterAction.setParameter 0 reaeqPlugin.index band1GainParam.index
        band1GainParam.name (db_to_normalized (FVal.fin (-4)) 24)
        ("eq :: set band " ++ toString (1 : ℤ) ++ " gain to " ++
          trivOracle.fmt (.fixedSigned 1) (FVal.fin (-4)) ++ " dB")
        ∈ (map_eq_reaeq trivOracle 0 reaeqPlugin toneEq800.eq 4).1) ∧
    (eqSection trivOracle cfgLoad 0 reaeqNoBandSnap toneEq800.eq =
      ((if ¬ reaeqNoBandPlugin.enabled then
          [ParameterAction.enablePlugin 0 reaeqNoBandPlugin.index reaeqNoBandPlugin.name
            "Enable EQ plugin for tone mapping"]
        else []),
        ["EQ map: '" ++ reaeqNoBandPlugin.name ++
          "' does not look like ReaEQ band params; skipped"], false)) :=
  ⟨claim_C6_amended.1 trivOracle cfgNoLoad 0 geqSnap toneEq800.eq graphicEqPlugin
      (by decide) (by decide) (by decide),
    claim_C6_amended.2.1 trivOracle 0 reaeqPlugin toneEq800.eq 4
      (FVal.fin 800, FVal.fin (-4)) [] 1 [] band1FreqParam band1GainParam
      (by decide) (by decide) (by decide) (by decide) (by decide) (by decide),
    claim_C6_amended.2.2 trivOracle cfgLoad 0 reaeqNoBandSnap toneEq800.eq
      reaeqNoBandPlugin (by decide) (by decide) (by decide) (by decide) (by decide)⟩
